import Mathlib

/-!
# AlphaMatting: the confidence-weighted local-linear alpha refinement of `main.cpp`

A shallow embedding of `calcAlpha`, `drawValuesImage`, `calcWindowMeansAndVars` and
`calcAlphaImage` from `src/main.cpp`, followed by theorems about them.

Conventions of the embedding.

* A C++ `double` is an exact rational (`ℚ`): rounding, infinities and NaN are outside the
  model.  A division whose divisor the source does not test is Lean's total division; no
  theorem below relies on the value of a quotient with divisor zero.
* An `unsigned char` is a `Fin 256`; an `int` is an `Int` (no `int` of the embedded code can
  overflow: all are sums of at most three products of differences of bytes, pixel indices or
  a truncated weight).
* A `std::vector<double>` indexed by pixel is a function `Nat → ℚ`; only the entries
  `pixel < IMAGE_WIDTH * IMAGE_HEIGHT` are meaningful.  A `cv::Mat` is its size together with
  its accessor `at(row, col)`.
* The collaborators that live outside `main.cpp` (`guidedFilter`, the one-field
  `calcWindowMeansAndVars` of `cv_utils`, `calcInverse`, `ImageMask::calcBoundaryDistanceMap`,
  `exp`, `rand`) are fields of `Collaborators`, so every theorem quantifies over what they
  return.
-/

namespace AlphaMatting

/-- An `unsigned char`. -/
abbrev uchar := Fin 256

/-- A `cv::Vec3b`: three bytes. -/
abbrev Vec3b := Fin 3 → uchar

/-- A `std::vector<double>` with one entry per pixel. -/
abbrev PixelField := Nat → ℚ

/-- A `cv::Mat` with elements of type `α`: its size and its accessor `at(row, col)`. -/
structure Mat (α : Type) where
  cols : Nat
  rows : Nat
  at_ : Nat → Nat → α

/-- The value of `numeric_limits<int>::max()`. -/
def INT_MAX : Int := 2147483647

/-- The constant `COLOR_DIFF_VAR` of `calcAlphaImage`. -/
def COLOR_DIFF_VAR : ℚ := 100

/-- The constant `MIN_ALPHA_CONFIDENCE` of `calcAlphaImage`. -/
def MIN_ALPHA_CONFIDENCE : ℚ := 1 / 10

/-- The constant `NUM_ITERATIONS` of `calcAlphaImage`. -/
def NUM_ITERATIONS : Nat := 10

/-- Conversion of a `double` to an `int`: truncation toward zero. -/
def truncToInt (q : ℚ) : Int := if 0 ≤ q then ⌊q⌋ else ⌈q⌉

/-- Conversion of a `double` to an `unsigned char` (the stored values lie in `0..255`, where
the conversion is truncation). -/
def toUchar (q : ℚ) : uchar := Fin.ofNat (Int.toNat ⌊q⌋)

/-- The collaborators of `main.cpp` whose code is not part of it. -/
structure Collaborators where
  /-- The function `exp` of the C library. -/
  exp : ℚ → ℚ
  /-- The result of the call of `rand()` made in iteration `iteration` for pixel `pixel`. -/
  rand : Nat → Nat → Int
  /-- The boundary map written by `ImageMask(mask, width, height).calcBoundaryDistanceMap`. -/
  calcBoundaryDistanceMap : (Nat → Bool) → Nat → Nat → (Nat → Nat)
  /-- The image written by `guidedFilter(guide, input, output, radius, epsilon)`. -/
  guidedFilter : Mat Vec3b → Mat uchar → Nat → ℚ → Mat uchar
  /-- The means written by the one-field `calcWindowMeansAndVars(values, width, height,
  window_size, means, vars)` of `cv_utils`. -/
  calcWindowMeansAndVars : PixelField → Nat → Nat → Nat → PixelField
  /-- The matrix returned by `calcInverse`. -/
  calcInverse : (Fin 3 → Fin 3 → ℚ) → (Fin 3 → Fin 3 → ℚ)

/-- The expression `image.at<Vec3b>(pixel / IMAGE_WIDTH, pixel % IMAGE_WIDTH)`. -/
def colorAt (image : Mat Vec3b) (pixel : Nat) : Vec3b :=
  image.at_ (pixel / image.cols) (pixel % image.cols)

/-- The numerator accumulated by the loop of `calcAlpha`. -/
def alphaNumerator (color foreground_color background_color : Vec3b) : ℚ :=
  ∑ c : Fin 3, ((((color c).val : Int) - ((background_color c).val : Int)) *
    (((foreground_color c).val : Int) - ((background_color c).val : Int)) : Int)

/-- The denominator accumulated by the loop of `calcAlpha`. -/
def alphaDenominator (foreground_color background_color : Vec3b) : ℚ :=
  ∑ c : Fin 3, ((((foreground_color c).val : Int) - ((background_color c).val : Int) : Int) : ℚ) ^ 2

/-- The function `calcAlpha` of `main.cpp`. -/
def calcAlpha (image : Mat Vec3b) (pixel foreground_pixel background_pixel : Nat) : ℚ :=
  let foreground_color := colorAt image foreground_pixel
  let background_color := colorAt image background_pixel
  let color := colorAt image pixel
  let alpha_numerator := alphaNumerator color foreground_color background_color
  let alpha_denominator := alphaDenominator foreground_color background_color
  let alpha := if |alpha_denominator| > 1 / 1000000 then alpha_numerator / alpha_denominator
    else 1 / 2
  max (min alpha 1) 0

/-- The function `drawValuesImage` of `main.cpp`; the pixel written at `(row, col)` is
`row * IMAGE_WIDTH + col`. -/
def drawValuesImage (values : PixelField) (IMAGE_WIDTH IMAGE_HEIGHT : Nat) : Mat uchar where
  cols := IMAGE_WIDTH
  rows := IMAGE_HEIGHT
  at_ := fun row col => toUchar (min (values (row * IMAGE_WIDTH + col) * 256) 255)

/-- The mutable state of `calcAlphaImage`: the vectors `alpha_values` and
`alpha_confidences`. -/
structure AlphaState where
  alpha_values : PixelField
  alpha_confidences : PixelField

/-- The value `trimap.at<uchar>(pixel / IMAGE_WIDTH, pixel % IMAGE_WIDTH)` read as an `int`;
`IMAGE_WIDTH` is the width of the image. -/
def trimapColor (image : Mat Vec3b) (trimap : Mat uchar) (pixel : Nat) : Int :=
  ((trimap.at_ (pixel / image.cols) (pixel % image.cols)).val : Int)

/-- The vector `foreground_mask_vec` of `calcAlphaImage`. -/
def foreground_mask (image : Mat Vec3b) (trimap : Mat uchar) (pixel : Nat) : Bool :=
  decide (trimapColor image trimap pixel > 200)

/-- The vector `background_mask_vec` of `calcAlphaImage`. -/
def background_mask (image : Mat Vec3b) (trimap : Mat uchar) (pixel : Nat) : Bool :=
  decide (trimapColor image trimap pixel < 100)

/-- The vector `foreground_boundary_map` of `calcAlphaImage`. -/
def foreground_boundary_map (E : Collaborators) (image : Mat Vec3b) (trimap : Mat uchar) :
    Nat → Nat :=
  E.calcBoundaryDistanceMap (foreground_mask image trimap) image.cols image.rows

/-- The vector `background_boundary_map` of `calcAlphaImage`. -/
def background_boundary_map (E : Collaborators) (image : Mat Vec3b) (trimap : Mat uchar) :
    Nat → Nat :=
  E.calcBoundaryDistanceMap (background_mask image trimap) image.cols image.rows

/-- The value `color_diff` that `calcAlphaImage` accumulates for an unknown pixel. -/
def colorDiff (color foreground_color background_color : Vec3b) (alpha : ℚ) : ℚ :=
  ∑ c : Fin 3, (((color c).val : ℚ) -
    (alpha * ((foreground_color c).val : ℚ) + (1 - alpha) * ((background_color c).val : ℚ))) ^ 2

/-- The first loop of `calcAlphaImage`: the initial estimate of alpha and confidence. -/
def initialEstimate (E : Collaborators) (image : Mat Vec3b) (trimap : Mat uchar) : AlphaState where
  alpha_values := fun pixel =>
    if foreground_mask image trimap pixel then 1
    else if background_mask image trimap pixel then 0
    else calcAlpha image pixel (foreground_boundary_map E image trimap pixel)
      (background_boundary_map E image trimap pixel)
  alpha_confidences := fun pixel =>
    if foreground_mask image trimap pixel then 1
    else if background_mask image trimap pixel then 1
    else
      let foreground_pixel := foreground_boundary_map E image trimap pixel
      let background_pixel := background_boundary_map E image trimap pixel
      let alpha := calcAlpha image pixel foreground_pixel background_pixel
      let color_diff := colorDiff (colorAt image pixel) (colorAt image foreground_pixel)
        (colorAt image background_pixel) alpha
      max (E.exp (-color_diff / (2 * COLOR_DIFF_VAR))) MIN_ALPHA_CONFIDENCE

/-- One entry of the parallel vectors `window_radiuses`, `window_epsilons` and
`window_weights`. -/
structure WindowScale where
  radius : Nat
  epsilon : ℚ
  weight : ℚ

/-- The scale vectors that `calcAlphaImage` builds: the loop over `radius` pushes one entry and
breaks. -/
def windowScales (IMAGE_WIDTH : Nat) : List WindowScale :=
  if 3 < IMAGE_WIDTH / 2 then [⟨3, 1 / 100000, 1⟩] else []

/-- The vector `image_values[c]` of `calcAlphaImage`. -/
def image_values (image : Mat Vec3b) (c : Fin 3) : PixelField :=
  fun pixel => 1 * ((colorAt image pixel c).val : ℚ) / 256

/-- A call of the one-field `calcWindowMeansAndVars` with window size `radius * 2 + 1`. -/
def windowMeans (E : Collaborators) (image : Mat Vec3b) (radius : Nat) (values : PixelField) :
    PixelField :=
  E.calcWindowMeansAndVars values image.cols image.rows (radius * 2 + 1)

/-- The vector `window_alpha_confidences` of a scale. -/
def window_alpha_confidences (E : Collaborators) (image : Mat Vec3b) (s : AlphaState)
    (w : WindowScale) : PixelField :=
  fun pixel => 1 * (((E.guidedFilter image
    (drawValuesImage s.alpha_confidences image.cols image.rows) w.radius w.epsilon).at_
      (pixel / image.cols) (pixel % image.cols)).val : ℚ) / 256

/-- The vector `image_alpha_values[c]` of a scale. -/
def image_alpha_values (image : Mat Vec3b) (s : AlphaState) (c : Fin 3) : PixelField :=
  fun pixel => (1 * ((colorAt image pixel c).val : ℚ) / 256) * s.alpha_values pixel *
    s.alpha_confidences pixel

/-- The vector `alpha_confidence_means` of a scale. -/
def alpha_confidence_means (E : Collaborators) (image : Mat Vec3b) (s : AlphaState)
    (radius : Nat) : PixelField :=
  windowMeans E image radius s.alpha_confidences

/-- The vector `image_means[c]` of a scale, after the division by `alpha_confidence_means`. -/
def image_means (E : Collaborators) (image : Mat Vec3b) (s : AlphaState) (radius : Nat)
    (c : Fin 3) : PixelField :=
  fun pixel => windowMeans E image radius
      (fun p => image_values image c p * s.alpha_confidences p) pixel /
    alpha_confidence_means E image s radius pixel

/-- The vector `image_vars[c_1 * 3 + c_2]` of a scale. -/
def image_vars (E : Collaborators) (image : Mat Vec3b) (s : AlphaState) (radius : Nat)
    (c_1 c_2 : Fin 3) : PixelField :=
  fun pixel => windowMeans E image radius
      (fun p => image_values image c_1 p * image_values image c_2 p * s.alpha_confidences p)
        pixel / alpha_confidence_means E image s radius pixel -
    image_means E image s radius c_1 pixel * image_means E image s radius c_2 pixel

/-- The vector `alpha_means` of a scale, after the division by `alpha_confidence_means`. -/
def alpha_means (E : Collaborators) (image : Mat Vec3b) (s : AlphaState) (radius : Nat) :
    PixelField :=
  fun pixel => windowMeans E image radius
      (fun p => s.alpha_values p * s.alpha_confidences p) pixel /
    alpha_confidence_means E image s radius pixel

/-- The vector `image_alpha_means[c]` of a scale, after the division by
`alpha_confidence_means`. -/
def image_alpha_means (E : Collaborators) (image : Mat Vec3b) (s : AlphaState) (radius : Nat)
    (c : Fin 3) : PixelField :=
  fun pixel => windowMeans E image radius (image_alpha_values image s c) pixel /
    alpha_confidence_means E image s radius pixel

/-- The vector `image_alpha_covariance` computed for a pixel. -/
def image_alpha_covariance (E : Collaborators) (image : Mat Vec3b) (s : AlphaState)
    (radius : Nat) (pixel : Nat) (c : Fin 3) : ℚ :=
  image_alpha_means E image s radius c pixel -
    image_means E image s radius c pixel * alpha_means E image s radius pixel

/-- The matrix `image_var` computed for a pixel and handed to `calcInverse`. -/
def image_var (E : Collaborators) (image : Mat Vec3b) (s : AlphaState) (w : WindowScale)
    (pixel : Nat) : Fin 3 → Fin 3 → ℚ :=
  fun c_1 c_2 => image_vars E image s w.radius c_1 c_2 pixel +
    w.epsilon * (if c_1 = c_2 then 1 else 0)

/-- The vector `a_value` computed for a pixel. -/
def a_value (E : Collaborators) (image : Mat Vec3b) (s : AlphaState) (w : WindowScale)
    (pixel : Nat) (c_1 : Fin 3) : ℚ :=
  ∑ c_2 : Fin 3, E.calcInverse (image_var E image s w pixel) c_1 c_2 *
    image_alpha_covariance E image s w.radius pixel c_2

/-- The value `b` computed for a pixel. -/
def b_value (E : Collaborators) (image : Mat Vec3b) (s : AlphaState) (w : WindowScale)
    (pixel : Nat) : ℚ :=
  alpha_means E image s w.radius pixel -
    ∑ c : Fin 3, a_value E image s w pixel c * image_means E image s w.radius c pixel

/-- The vector `a_means[c]` of a scale. -/
def a_means (E : Collaborators) (image : Mat Vec3b) (s : AlphaState) (w : WindowScale)
    (c : Fin 3) : PixelField :=
  windowMeans E image w.radius (fun pixel => a_value E image s w pixel c)

/-- The vector `b_means` of a scale. -/
def b_means (E : Collaborators) (image : Mat Vec3b) (s : AlphaState) (w : WindowScale) :
    PixelField :=
  windowMeans E image w.radius (fun pixel => b_value E image s w pixel)

/-- The value `alpha` of the fusion loop before it is clamped: the linear reconstruction of a
scale. -/
def reconstruction (E : Collaborators) (image : Mat Vec3b) (s : AlphaState) (w : WindowScale)
    (pixel : Nat) : ℚ :=
  b_means E image s w pixel +
    ∑ c : Fin 3, a_means E image s w c pixel * image_values image c pixel

/-- The value `alpha` of the fusion loop after `max(min(alpha, 1.0), 0.0)`. -/
def candidate (E : Collaborators) (image : Mat Vec3b) (s : AlphaState) (w : WindowScale)
    (pixel : Nat) : ℚ :=
  max (min (reconstruction E image s w pixel) 1) 0

/-- The value of `int window_weight = window_weights[window_index]`. -/
def window_weight (w : WindowScale) : Int := truncToInt w.weight

/-- The accumulators of one iteration; `alpha_value_sums2` is never written and is left
out. -/
structure Sums where
  alpha_value_sums : PixelField
  alpha_confidence_sums : PixelField
  alpha_confidence_sums2 : PixelField

/-- The accumulators as they are initialised at the start of an iteration. -/
def zeroSums : Sums := ⟨fun _ => 0, fun _ => 0, fun _ => 0⟩

/-- The contribution of one scale to the accumulators (the loop at the end of the body of the
loop over `window_index`). -/
def addScale (E : Collaborators) (image : Mat Vec3b) (s : AlphaState) (acc : Sums)
    (w : WindowScale) : Sums where
  alpha_value_sums := fun pixel => acc.alpha_value_sums pixel +
    candidate E image s w pixel * (window_weight w : ℚ) * window_alpha_confidences E image s w pixel
  alpha_confidence_sums := fun pixel => acc.alpha_confidence_sums pixel +
    (window_weight w : ℚ) * window_alpha_confidences E image s w pixel
  alpha_confidence_sums2 := fun pixel => acc.alpha_confidence_sums2 pixel +
    (window_weight w : ℚ) * window_alpha_confidences E image s w pixel *
      window_alpha_confidences E image s w pixel

/-- The loop over `window_index` of one iteration. -/
def accumulate (E : Collaborators) (image : Mat Vec3b) (s : AlphaState)
    (scales : List WindowScale) : Sums :=
  scales.foldl (addScale E image s) zeroSums

/-- The loop after the scales: the fused alpha and confidence of every pixel. -/
def fuse (E : Collaborators) (iteration : Nat) (sums : Sums) : AlphaState where
  alpha_values := fun pixel =>
    let alpha_mean : ℚ := if sums.alpha_confidence_sums pixel ≠ 0
      then sums.alpha_value_sums pixel / sums.alpha_confidence_sums pixel
      else ((Int.tdiv (E.rand iteration pixel) INT_MAX : Int) : ℚ)
    max (min alpha_mean 1) 0
  alpha_confidences := fun pixel =>
    if sums.alpha_confidence_sums pixel ≠ 0
    then max (sums.alpha_confidence_sums2 pixel / sums.alpha_confidence_sums pixel)
      MIN_ALPHA_CONFIDENCE
    else 0

/-- The last loop of an iteration: the known pixels are written again. -/
def reassert (image : Mat Vec3b) (trimap : Mat uchar) (s : AlphaState) : AlphaState where
  alpha_values := fun pixel =>
    if foreground_mask image trimap pixel then 1
    else if background_mask image trimap pixel then 0
    else s.alpha_values pixel
  alpha_confidences := fun pixel =>
    if foreground_mask image trimap pixel then 1
    else if background_mask image trimap pixel then 1
    else s.alpha_confidences pixel

/-- The body of the loop over `iteration` for an arbitrary list of scales. -/
def refineIteration (E : Collaborators) (image : Mat Vec3b) (trimap : Mat uchar)
    (scales : List WindowScale) (iteration : Nat) (s : AlphaState) : AlphaState :=
  reassert image trimap (fuse E iteration (accumulate E image s scales))

/-- The state after the initial estimate (`k = 0`) and after iteration `k` (`1 ≤ k`), for an
arbitrary list of scales. -/
def refineState (E : Collaborators) (image : Mat Vec3b) (trimap : Mat uchar)
    (scales : List WindowScale) : Nat → AlphaState
  | 0 => initialEstimate E image trimap
  | k + 1 => refineIteration E image trimap scales (k + 1) (refineState E image trimap scales k)

/-- The state of `calcAlphaImage` after the initial estimate (`k = 0`) and after iteration
`k`: the scales are those the function builds from the image width. -/
def calcAlphaImageState (E : Collaborators) (image : Mat Vec3b) (trimap : Mat uchar)
    (k : Nat) : AlphaState :=
  refineState E image trimap (windowScales image.cols) k

/-- The function `calcAlphaImage` of `main.cpp`: the image drawn from the alpha values after
`NUM_ITERATIONS` iterations. -/
def calcAlphaImage (E : Collaborators) (image : Mat Vec3b) (trimap : Mat uchar) : Mat uchar where
  cols := image.cols
  rows := image.rows
  at_ := fun y x => toUchar (max (min
    ((calcAlphaImageState E image trimap NUM_ITERATIONS).alpha_values (y * image.cols + x) * 256)
      255) 0)

/-! ### The windowed statistics of `main.cpp` and the integration utility -/

/-- The pixels of a `IMAGE_WIDTH × IMAGE_HEIGHT` image that lie in the box
`[x_1, x_2] × [y_1, y_2]`: the box clipped to the image. -/
def clippedBox (IMAGE_WIDTH IMAGE_HEIGHT : Nat) (x_1 y_1 x_2 y_2 : Int) : Finset Nat :=
  (Finset.range (IMAGE_WIDTH * IMAGE_HEIGHT)).filter (fun pixel =>
    x_1 ≤ ((pixel % IMAGE_WIDTH : Nat) : Int) ∧ ((pixel % IMAGE_WIDTH : Nat) : Int) ≤ x_2 ∧
    y_1 ≤ ((pixel / IMAGE_WIDTH : Nat) : Int) ∧ ((pixel / IMAGE_WIDTH : Nat) : Int) ≤ y_2)

/-- Modelled from the spec: `calcBoxIntegrationMask` of `cv_utils`, which is not part of
`main.cpp`.  The spec calls its result an opaque prefix structure built from a field; the
structure is represented by the field it was built from. -/
def calcBoxIntegrationMask (values : PixelField) (_IMAGE_WIDTH _IMAGE_HEIGHT : Nat) :
    PixelField :=
  values

/-- Modelled from the spec: `calcBoxIntegration` of `cv_utils`, which is not part of
`main.cpp`: the range sum of the field over the box, clipped to the image bounds. -/
def calcBoxIntegration (mask : PixelField) (IMAGE_WIDTH IMAGE_HEIGHT : Nat)
    (x_1 y_1 x_2 y_2 : Int) : ℚ :=
  ∑ pixel in clippedBox IMAGE_WIDTH IMAGE_HEIGHT x_1 y_1 x_2 y_2, mask pixel

/-- The outputs `means` and `vars` of `calcWindowMeansAndVars`; `vars` is indexed by
`c_1 * NUM_CHANNELS + c_2`. -/
structure MeansAndVars where
  means : Nat → PixelField
  vars : Nat → PixelField

/-- The value `values[c]` of a vector of fields. -/
def channel (values : List PixelField) (c : Nat) : PixelField :=
  values.getD c (fun _ => 0)

/-- The `int area` that `calcWindowMeansAndVars` of `main.cpp` computes for a pixel. -/
def windowArea (weights : PixelField) (IMAGE_WIDTH IMAGE_HEIGHT : Nat) (WINDOW_SIZE : Int)
    (pixel : Nat) : Int :=
  let x_1 : Int := ((pixel % IMAGE_WIDTH : Nat) : Int) - Int.tdiv (WINDOW_SIZE - 1) 2
  let y_1 : Int := ((pixel / IMAGE_WIDTH : Nat) : Int) - Int.tdiv (WINDOW_SIZE - 1) 2
  let x_2 : Int := ((pixel % IMAGE_WIDTH : Nat) : Int) + Int.tdiv (WINDOW_SIZE - 1) 2
  let y_2 : Int := ((pixel / IMAGE_WIDTH : Nat) : Int) + Int.tdiv (WINDOW_SIZE - 1) 2
  truncToInt (calcBoxIntegration (calcBoxIntegrationMask weights IMAGE_WIDTH IMAGE_HEIGHT)
    IMAGE_WIDTH IMAGE_HEIGHT x_1 y_1 x_2 y_2)

/-- The function `calcWindowMeansAndVars` of `main.cpp` (several fields and a weight
field). -/
def calcWindowMeansAndVars (values : List PixelField) (weights : PixelField)
    (IMAGE_WIDTH IMAGE_HEIGHT : Nat) (WINDOW_SIZE : Int) : MeansAndVars :=
  let NUM_CHANNELS := values.length
  let weighted_values : Nat → PixelField := fun c pixel => channel values c pixel * weights pixel
  let sum_masks : Nat → PixelField := fun c =>
    calcBoxIntegrationMask (channel values c) IMAGE_WIDTH IMAGE_HEIGHT
  let weighted_values2 : Nat → PixelField := fun idx pixel =>
    channel values (idx / NUM_CHANNELS) pixel * weighted_values (idx % NUM_CHANNELS) pixel
  let sum2_masks : Nat → PixelField := fun idx =>
    calcBoxIntegrationMask (weighted_values2 idx) IMAGE_WIDTH IMAGE_HEIGHT
  let x_1 : Nat → Int := fun pixel =>
    ((pixel % IMAGE_WIDTH : Nat) : Int) - Int.tdiv (WINDOW_SIZE - 1) 2
  let y_1 : Nat → Int := fun pixel =>
    ((pixel / IMAGE_WIDTH : Nat) : Int) - Int.tdiv (WINDOW_SIZE - 1) 2
  let x_2 : Nat → Int := fun pixel =>
    ((pixel % IMAGE_WIDTH : Nat) : Int) + Int.tdiv (WINDOW_SIZE - 1) 2
  let y_2 : Nat → Int := fun pixel =>
    ((pixel / IMAGE_WIDTH : Nat) : Int) + Int.tdiv (WINDOW_SIZE - 1) 2
  let area : Nat → Int := fun pixel =>
    windowArea weights IMAGE_WIDTH IMAGE_HEIGHT WINDOW_SIZE pixel
  let mean : Nat → PixelField := fun c pixel =>
    calcBoxIntegration (sum_masks c) IMAGE_WIDTH IMAGE_HEIGHT
      (x_1 pixel) (y_1 pixel) (x_2 pixel) (y_2 pixel) / (area pixel : ℚ)
  { means := mean
    vars := fun idx pixel =>
      calcBoxIntegration (sum2_masks idx) IMAGE_WIDTH IMAGE_HEIGHT
        (x_1 pixel) (y_1 pixel) (x_2 pixel) (y_2 pixel) / (area pixel : ℚ) -
      mean (idx / NUM_CHANNELS) pixel * mean (idx % NUM_CHANNELS) pixel }

/-- The window of side `WINDOW_SIZE` centred at `pixel`, clipped to the image: the box that
the windowed statistics integrate over. -/
def windowPixels (IMAGE_WIDTH IMAGE_HEIGHT WINDOW_SIZE : Nat) (pixel : Nat) : Finset Nat :=
  clippedBox IMAGE_WIDTH IMAGE_HEIGHT
    (((pixel % IMAGE_WIDTH : Nat) : Int) - Int.tdiv ((WINDOW_SIZE : Int) - 1) 2)
    (((pixel / IMAGE_WIDTH : Nat) : Int) - Int.tdiv ((WINDOW_SIZE : Int) - 1) 2)
    (((pixel % IMAGE_WIDTH : Nat) : Int) + Int.tdiv ((WINDOW_SIZE : Int) - 1) 2)
    (((pixel / IMAGE_WIDTH : Nat) : Int) + Int.tdiv ((WINDOW_SIZE : Int) - 1) 2)

/-- Modelled from the spec: the means of the one-field `calcWindowMeansAndVars` of
`cv_utils`, which is not part of `main.cpp`: the sum of the field over the square window
centred at the pixel and clipped at the image border, divided by the clipped pixel count. -/
def boxWindowMeans (values : PixelField) (IMAGE_WIDTH IMAGE_HEIGHT WINDOW_SIZE : Nat) :
    PixelField :=
  fun pixel => (∑ p in windowPixels IMAGE_WIDTH IMAGE_HEIGHT WINDOW_SIZE pixel, values p) /
    ((windowPixels IMAGE_WIDTH IMAGE_HEIGHT WINDOW_SIZE pixel).card : ℚ)

/-! ### Concrete inputs -/

/-- The closed-form inverse of a 3×3 matrix by cofactors (indices are taken modulo 3). -/
def cofactorInverse (M : Fin 3 → Fin 3 → ℚ) : Fin 3 → Fin 3 → ℚ :=
  fun i j => (M (j + 1) (i + 1) * M (j + 2) (i + 2) - M (j + 1) (i + 2) * M (j + 2) (i + 1)) /
    (M 0 0 * (M 1 1 * M 2 2 - M 1 2 * M 2 1) - M 0 1 * (M 1 0 * M 2 2 - M 1 2 * M 2 0) +
      M 0 2 * (M 1 0 * M 2 1 - M 1 1 * M 2 0))

/-- A set of collaborators: a rational stand-in for `exp`, `rand()` always 0, every pixel its
own nearest boundary pixel, the identity as smoothing filter, the spec's box mean and the
cofactor inverse. -/
def plainCollaborators : Collaborators where
  exp := fun x => if x ≤ 0 then 1 / (1 - x) else 1 + x
  rand := fun _ _ => 0
  calcBoundaryDistanceMap := fun _ _ _ pixel => pixel
  guidedFilter := fun _ input _ _ => input
  calcWindowMeansAndVars := boxWindowMeans
  calcInverse := cofactorInverse

/-- A 1×1 image whose pixel is gray. -/
def grayPixelImage : Mat Vec3b := ⟨1, 1, fun _ _ _ => 128⟩

/-- A 1×1 trimap whose pixel is foreground. -/
def foregroundTrimap : Mat uchar := ⟨1, 1, fun _ _ => 255⟩

/-- A 1×1 trimap whose pixel is background. -/
def backgroundTrimap : Mat uchar := ⟨1, 1, fun _ _ => 0⟩

/-- A 1×1 trimap whose pixel is unknown. -/
def unknownTrimap : Mat uchar := ⟨1, 1, fun _ _ => 128⟩

/-- Collaborators whose smoothing filter and box mean depend on the scale only: the filter
returns the byte 255 at radius 1 and 128 otherwise, and the box mean returns 1 for windows of
side 3 and 0 otherwise. -/
def scaleProbe : Collaborators where
  exp := plainCollaborators.exp
  rand := fun _ _ => 0
  calcBoundaryDistanceMap := fun _ _ _ pixel => pixel
  guidedFilter := fun _ input radius _ =>
    ⟨input.cols, input.rows, fun _ _ => if radius = 1 then 255 else 128⟩
  calcWindowMeansAndVars := fun _ _ _ WINDOW_SIZE _ => if WINDOW_SIZE = 3 then 1 else 0
  calcInverse := cofactorInverse

/-- A state with alpha one half and confidence one everywhere. -/
def halfState : AlphaState := ⟨fun _ => 1 / 2, fun _ => 1⟩

/-- Two scales with the same radius, the same epsilon and non-negative weights with the same
integer part. -/
def SameStoredWeight (a b : WindowScale) : Prop :=
  a.radius = b.radius ∧ a.epsilon = b.epsilon ∧ 0 ≤ a.weight ∧ 0 ≤ b.weight ∧
    ⌊a.weight⌋ = ⌊b.weight⌋

/-- A 3×1 image: a gray pixel, a white pixel and a black pixel. -/
def mixImage : Mat Vec3b := ⟨3, 1, fun _ col _ => if col = 0 then 128 else if col = 1 then 255 else 0⟩

/-- A 3×1 trimap: an unknown pixel, a foreground pixel and a background pixel. -/
def mixTrimap : Mat uchar := ⟨3, 1, fun _ col => if col = 0 then 128 else if col = 1 then 255 else 0⟩

/-- Collaborators for the 3×1 image: the nearest pixel of a mask is pixel 1 when the mask holds
pixel 1 and pixel 2 otherwise. -/
def mixCollaborators : Collaborators :=
  { plainCollaborators with calcBoundaryDistanceMap := fun mask _ _ _ => if mask 1 then 1 else 2 }

/-- A 2×1 image: a black pixel and a gray pixel. -/
def twoPixelImage : Mat Vec3b := ⟨2, 1, fun _ col _ => if col = 0 then 0 else 128⟩

/-- A state on two pixels: alpha 0 and 1, confidence 1. -/
def rampState : AlphaState := ⟨fun pixel => if pixel = 0 then 0 else 1, fun _ => 1⟩

/-- An 8×1 gray image: the narrowest image for which `calcAlphaImage` builds a scale. -/
def wideImage : Mat Vec3b := ⟨8, 1, fun _ _ _ => 128⟩

/-- An 8×1 trimap whose pixels are all unknown. -/
def wideTrimap : Mat uchar := ⟨8, 1, fun _ _ => 128⟩

/-! ## Auxiliary lemmas -/

/-- The clamp `max(min(x, 1.0), 0.0)` lands in the unit interval. -/
theorem clamp_bounds (x : ℚ) : 0 ≤ max (min x 1) 0 ∧ max (min x 1) 0 ≤ 1 :=
  ⟨le_max_right _ _, max_le (min_le_right _ _) zero_le_one⟩

/-- The clamp is the identity on the unit interval. -/
theorem clamp_of_mem {x : ℚ} (h0 : 0 ≤ x) (h1 : x ≤ 1) : max (min x 1) 0 = x := by
  rw [min_eq_left h1, max_eq_left h0]

/-- The byte 128 as a number. -/
theorem uchar_val_128 : ((128 : uchar) : Nat) = 128 := rfl

/-- The byte 255 as a number. -/
theorem uchar_val_255 : ((255 : uchar) : Nat) = 255 := rfl

/-- Truncating a non-negative value gives a non-negative integer. -/
theorem truncToInt_nonneg {q : ℚ} (h : 0 ≤ q) : 0 ≤ truncToInt q := by
  unfold truncToInt
  rw [if_pos h]
  exact Int.floor_nonneg.mpr h

/-- Truncation leaves an integer value unchanged. -/
theorem truncToInt_intCast (n : Int) : truncToInt (n : ℚ) = n := by
  unfold truncToInt
  split_ifs <;> simp

/-- The weight 1.0 is stored as the integer 1. -/
theorem truncToInt_one : truncToInt 1 = 1 := by
  have := truncToInt_intCast 1
  simpa using this

/-- The weight -1.0 is stored as the integer -1. -/
theorem truncToInt_neg_one : truncToInt (-1) = -1 := by
  have := truncToInt_intCast (-1)
  simpa using this

/-- The last loop of an iteration writes (1, 1) at a foreground pixel. -/
theorem reassert_foreground (image : Mat Vec3b) (trimap : Mat uchar) (s : AlphaState)
    (pixel : Nat) (h : 200 < trimapColor image trimap pixel) :
    (reassert image trimap s).alpha_values pixel = 1 ∧
      (reassert image trimap s).alpha_confidences pixel = 1 := by
  simp [reassert, foreground_mask, h]

/-- The last loop of an iteration writes (0, 1) at a background pixel. -/
theorem reassert_background (image : Mat Vec3b) (trimap : Mat uchar) (s : AlphaState)
    (pixel : Nat) (h : trimapColor image trimap pixel < 100) :
    (reassert image trimap s).alpha_values pixel = 0 ∧
      (reassert image trimap s).alpha_confidences pixel = 1 := by
  have h' : ¬ 200 < trimapColor image trimap pixel := by omega
  simp [reassert, foreground_mask, background_mask, h, h']

/-- A foreground pixel holds (1, 1) in every state, for every list of scales. -/
theorem refineState_foreground (E : Collaborators) (image : Mat Vec3b) (trimap : Mat uchar)
    (scales : List WindowScale) (k pixel : Nat) (h : 200 < trimapColor image trimap pixel) :
    (refineState E image trimap scales k).alpha_values pixel = 1 ∧
      (refineState E image trimap scales k).alpha_confidences pixel = 1 := by
  cases k with
  | zero => simp [refineState, initialEstimate, foreground_mask, h]
  | succ k => exact reassert_foreground image trimap _ pixel h

/-- A background pixel holds (0, 1) in every state, for every list of scales. -/
theorem refineState_background (E : Collaborators) (image : Mat Vec3b) (trimap : Mat uchar)
    (scales : List WindowScale) (k pixel : Nat) (h : trimapColor image trimap pixel < 100) :
    (refineState E image trimap scales k).alpha_values pixel = 0 ∧
      (refineState E image trimap scales k).alpha_confidences pixel = 1 := by
  cases k with
  | zero =>
    have h' : ¬ 200 < trimapColor image trimap pixel := by omega
    simp [refineState, initialEstimate, foreground_mask, background_mask, h, h']
  | succ k => exact reassert_background image trimap _ pixel h

/-- The denominator of `calcAlpha` is an integer: a sum of squares of differences of bytes. -/
theorem alphaDenominator_eq_cast (F B : Vec3b) :
    alphaDenominator F B =
      ((∑ c : Fin 3, (((F c).val : Int) - ((B c).val : Int)) ^ 2 : Int) : ℚ) := by
  simp [alphaDenominator]

/-- The integer sum of squared channel differences is at least 1 exactly when the two colours differ. -/
theorem alphaDenominator_int_pos_iff (F B : Vec3b) :
    1 ≤ (∑ c : Fin 3, (((F c).val : Int) - ((B c).val : Int)) ^ 2 : Int) ↔ F ≠ B := by
  constructor
  · intro h hFB
    subst hFB
    simp at h
  · intro h
    have : ∃ c, F c ≠ B c := by
      by_contra hcon
      push_neg at hcon
      exact h (funext hcon)
    obtain ⟨c, hc⟩ := this
    have hne : ((F c).val : Int) - ((B c).val : Int) ≠ 0 := by
      intro h0
      apply hc
      apply Fin.ext
      omega
    have hpos : 1 ≤ (((F c).val : Int) - ((B c).val : Int)) ^ 2 := by
      have := sq_pos_of_ne_zero hne  
      omega
    calc (1 : Int) ≤ (((F c).val : Int) - ((B c).val : Int)) ^ 2 := hpos
      _ ≤ ∑ c : Fin 3, (((F c).val : Int) - ((B c).val : Int)) ^ 2 :=
        Finset.single_le_sum (f := fun c : Fin 3 => (((F c).val : Int) - ((B c).val : Int)) ^ 2)
          (fun i _ => sq_nonneg _) (Finset.mem_univ c)

/-- The test `abs(alpha_denominator) > 0.000001` of `calcAlpha` holds exactly when the two colours differ. -/
theorem alphaDenominator_test_iff (F B : Vec3b) :
    |alphaDenominator F B| > 1 / 1000000 ↔ F ≠ B := by
  rw [← alphaDenominator_int_pos_iff, alphaDenominator_eq_cast]
  set n : Int := ∑ c : Fin 3, (((F c).val : Int) - ((B c).val : Int)) ^ 2 with hn
  have hn0 : 0 ≤ n := Finset.sum_nonneg (fun i _ => sq_nonneg _)
  have hq0 : (0 : ℚ) ≤ (n : ℚ) := by exact_mod_cast hn0
  rw [abs_of_nonneg hq0]
  constructor
  · intro h
    by_contra hlt
    have : n = 0 := by omega
    rw [this] at h
    norm_num at h
  · intro h
    have : (1 : ℚ) ≤ (n : ℚ) := by exact_mod_cast h
    linarith

/-- The accumulators after a run of scales: the starting value plus the sum of the contributions. -/
theorem foldl_addScale (E : Collaborators) (image : Mat Vec3b) (s : AlphaState)
    (scales : List WindowScale) (acc : Sums) (pixel : Nat) :
    (scales.foldl (addScale E image s) acc).alpha_value_sums pixel =
        acc.alpha_value_sums pixel + (scales.map (fun w => candidate E image s w pixel *
          (window_weight w : ℚ) * window_alpha_confidences E image s w pixel)).sum ∧
    (scales.foldl (addScale E image s) acc).alpha_confidence_sums pixel =
        acc.alpha_confidence_sums pixel + (scales.map (fun w =>
          (window_weight w : ℚ) * window_alpha_confidences E image s w pixel)).sum ∧
    (scales.foldl (addScale E image s) acc).alpha_confidence_sums2 pixel =
        acc.alpha_confidence_sums2 pixel + (scales.map (fun w =>
          (window_weight w : ℚ) * window_alpha_confidences E image s w pixel *
            window_alpha_confidences E image s w pixel)).sum := by
  induction scales generalizing acc with
  | nil => simp
  | cons w ws ih =>
    simp only [List.foldl_cons, List.map_cons, List.sum_cons]
    obtain ⟨h1, h2, h3⟩ := ih (addScale E image s acc w)
    rw [h1, h2, h3]
    simp only [addScale]
    refine ⟨by ring, by ring, by ring⟩

/-- The three accumulators of an iteration as sums over the scales. -/
theorem accumulate_sums (E : Collaborators) (image : Mat Vec3b) (s : AlphaState)
    (scales : List WindowScale) (pixel : Nat) :
    (accumulate E image s scales).alpha_value_sums pixel =
        (scales.map (fun w => candidate E image s w pixel *
          (window_weight w : ℚ) * window_alpha_confidences E image s w pixel)).sum ∧
    (accumulate E image s scales).alpha_confidence_sums pixel =
        (scales.map (fun w =>
          (window_weight w : ℚ) * window_alpha_confidences E image s w pixel)).sum ∧
    (accumulate E image s scales).alpha_confidence_sums2 pixel =
        (scales.map (fun w =>
          (window_weight w : ℚ) * window_alpha_confidences E image s w pixel *
            window_alpha_confidences E image s w pixel)).sum := by
  have h := foldl_addScale E image s scales zeroSums pixel
  simpa [accumulate, zeroSums] using h

/-- A window confidence is a byte divided by 256, so it lies in [0, 255/256]. -/
theorem window_alpha_confidences_bounds (E : Collaborators) (image : Mat Vec3b) (s : AlphaState)
    (w : WindowScale) (pixel : Nat) :
    0 ≤ window_alpha_confidences E image s w pixel ∧
      window_alpha_confidences E image s w pixel ≤ 255 / 256 := by
  unfold window_alpha_confidences
  set v := (E.guidedFilter image (drawValuesImage s.alpha_confidences image.cols image.rows)
    w.radius w.epsilon).at_ (pixel / image.cols) (pixel % image.cols) with hv
  have h1 : (v.val : ℚ) ≤ 255 := by
    have : v.val ≤ 255 := by omega
    exact_mod_cast this
  have h0 : (0 : ℚ) ≤ (v.val : ℚ) := Nat.cast_nonneg _
  constructor
  · positivity
  · linarith

/-- A non-negative configured weight is stored as a non-negative integer. -/
theorem window_weight_nonneg {w : WindowScale} (h : 0 ≤ w.weight) :
    (0 : ℚ) ≤ (window_weight w : ℚ) := by
  have := truncToInt_nonneg h
  unfold window_weight
  exact_mod_cast this

/-- The residual `color_diff` is a sum of squares. -/
theorem colorDiff_nonneg (C F B : Vec3b) (alpha : ℚ) : 0 ≤ colorDiff C F B alpha :=
  Finset.sum_nonneg (fun _ _ => sq_nonneg _)

/-- The confidences of the initial estimate lie in [0.1, 1] when `exp` is at most 1 on the non-positive numbers. -/
theorem initial_confidence_bounds (E : Collaborators) (image : Mat Vec3b) (trimap : Mat uchar)
    (pixel : Nat) (hexp : ∀ x : ℚ, x ≤ 0 → E.exp x ≤ 1) :
    1 / 10 ≤ (initialEstimate E image trimap).alpha_confidences pixel ∧
      (initialEstimate E image trimap).alpha_confidences pixel ≤ 1 := by
  simp only [initialEstimate]
  split_ifs
  · norm_num
  · norm_num
  · constructor
    · exact le_trans (by norm_num [MIN_ALPHA_CONFIDENCE]) (le_max_right _ _)
    · apply max_le
      · apply hexp
        have := colorDiff_nonneg (colorAt image pixel)
          (colorAt image (foreground_boundary_map E image trimap pixel))
          (colorAt image (background_boundary_map E image trimap pixel))
          (calcAlpha image pixel (foreground_boundary_map E image trimap pixel)
            (background_boundary_map E image trimap pixel))
        have h2 : (0 : ℚ) < 2 * COLOR_DIFF_VAR := by norm_num [COLOR_DIFF_VAR]
        apply div_nonpos_of_nonpos_of_nonneg _ h2.le
        linarith
      · norm_num [MIN_ALPHA_CONFIDENCE]

/-- With non-negative weights, a pixel whose confidence sum is nonzero gets a fused confidence in [0.1, 1]. -/
theorem fuse_confidence_bounds (E : Collaborators) (image : Mat Vec3b) (s : AlphaState)
    (scales : List WindowScale) (iteration pixel : Nat)
    (hw : ∀ w ∈ scales, 0 ≤ w.weight)
    (hne : (accumulate E image s scales).alpha_confidence_sums pixel ≠ 0) :
    1 / 10 ≤ (fuse E iteration (accumulate E image s scales)).alpha_confidences pixel ∧
      (fuse E iteration (accumulate E image s scales)).alpha_confidences pixel ≤ 1 := by
  simp only [fuse, hne, ne_eq, not_false_eq_true, if_true]
  constructor
  · exact le_trans (by norm_num [MIN_ALPHA_CONFIDENCE]) (le_max_right _ _)
  · apply max_le _ (by norm_num [MIN_ALPHA_CONFIDENCE])
    obtain ⟨_, h2, h3⟩ := accumulate_sums E image s scales pixel
    have hterm : ∀ w ∈ scales, (window_weight w : ℚ) * window_alpha_confidences E image s w pixel *
        window_alpha_confidences E image s w pixel ≤
        (window_weight w : ℚ) * window_alpha_confidences E image s w pixel := by
      intro w hwm
      have hb := window_alpha_confidences_bounds E image s w pixel
      have hn := window_weight_nonneg (hw w hwm)
      have : 0 ≤ (window_weight w : ℚ) * window_alpha_confidences E image s w pixel :=
        mul_nonneg hn hb.1
      nlinarith [hb.1, hb.2]
    have hnn : ∀ x ∈ scales.map (fun w =>
        (window_weight w : ℚ) * window_alpha_confidences E image s w pixel), 0 ≤ x := by
      intro x hx
      obtain ⟨w, hwm, rfl⟩ := List.mem_map.mp hx
      exact mul_nonneg (window_weight_nonneg (hw w hwm))
        (window_alpha_confidences_bounds E image s w pixel).1
    have hS0 : 0 ≤ (accumulate E image s scales).alpha_confidence_sums pixel := by
      rw [h2]; exact List.sum_nonneg hnn
    have hSpos : 0 < (accumulate E image s scales).alpha_confidence_sums pixel :=
      lt_of_le_of_ne hS0 (Ne.symm hne)
    rw [div_le_one hSpos, h2, h3]
    exact List.sum_le_sum hterm

/-- The weights that `calcAlphaImage` configures are whole numbers. -/
theorem windowScales_whole_weights (IMAGE_WIDTH : Nat) :
    ∀ w ∈ windowScales IMAGE_WIDTH, ∃ n : Nat, w.weight = (n : ℚ) := by
  intro w hw
  unfold windowScales at hw
  split_ifs at hw
  · rw [List.mem_singleton] at hw
    exact ⟨1, by rw [hw]; norm_num⟩
  · simp at hw

/-- For scales whose weights are whole numbers, the alpha written by the fusion step at an
unknown pixel with a nonzero confidence sum is the confidence-weighted average of the clamped
reconstructions. -/
theorem fused_alpha_whole_weights (E : Collaborators) (image : Mat Vec3b) (trimap : Mat uchar)
    (scales : List WindowScale) (iteration : Nat) (s : AlphaState) (pixel : Nat)
    (hlo : 100 ≤ trimapColor image trimap pixel) (hhi : trimapColor image trimap pixel ≤ 200)
    (hint : ∀ w ∈ scales, ∃ n : Nat, w.weight = (n : ℚ))
    (hsum : (scales.map (fun w => w.weight *
      window_alpha_confidences E image s w pixel)).sum ≠ 0) :
    (refineIteration E image trimap scales iteration s).alpha_values pixel =
      (scales.map (fun w => w.weight * window_alpha_confidences E image s w pixel *
          max (min (reconstruction E image s w pixel) 1) 0)).sum /
        (scales.map (fun w => w.weight * window_alpha_confidences E image s w pixel)).sum := by
  have hfg : ¬ 200 < trimapColor image trimap pixel := by omega
  have hbg : ¬ trimapColor image trimap pixel < 100 := by omega
  have hstored : ∀ w ∈ scales, (window_weight w : ℚ) = w.weight := by
    intro w hwm
    obtain ⟨n, hn⟩ := hint w hwm
    have h := truncToInt_intCast (n : Int)
    simp only [Int.cast_natCast] at h
    simp only [window_weight, hn, h, Int.cast_natCast]
  have hnonneg : ∀ w ∈ scales, 0 ≤ w.weight := by
    intro w hwm
    obtain ⟨n, hn⟩ := hint w hwm
    rw [hn]; exact Nat.cast_nonneg n
  obtain ⟨h1, h2, _⟩ := accumulate_sums E image s scales pixel
  have hV : (scales.map (fun w => candidate E image s w pixel *
          (window_weight w : ℚ) * window_alpha_confidences E image s w pixel)).sum =
      (scales.map (fun w => w.weight * window_alpha_confidences E image s w pixel *
            max (min (reconstruction E image s w pixel) 1) 0)).sum := by
    congr 1
    apply List.map_congr_left
    intro w hwm
    rw [hstored w hwm]
    simp only [candidate]
    ring
  have hS : (scales.map (fun w =>
          (window_weight w : ℚ) * window_alpha_confidences E image s w pixel)).sum =
      (scales.map (fun w => w.weight * window_alpha_confidences E image s w pixel)).sum := by
    congr 1
    apply List.map_congr_left
    intro w hwm
    rw [hstored w hwm]
  rw [hV] at h1
  rw [hS] at h2
  have hne : (accumulate E image s scales).alpha_confidence_sums pixel ≠ 0 := by
    rw [h2]; exact hsum
  have hmain : (refineIteration E image trimap scales iteration s).alpha_values pixel =
      max (min ((scales.map (fun w => w.weight * window_alpha_confidences E image s w pixel *
            max (min (reconstruction E image s w pixel) 1) 0)).sum /
        (scales.map (fun w => w.weight *
          window_alpha_confidences E image s w pixel)).sum) 1) 0 := by
    simp only [refineIteration, reassert, foreground_mask, background_mask, gt_iff_lt, hfg, hbg,
      decide_False, Bool.false_eq_true, if_false, fuse, hne, ne_eq, not_false_eq_true, if_true]
    rw [h1, h2]
  rw [hmain]
  have hcoef : ∀ w ∈ scales, 0 ≤ w.weight * window_alpha_confidences E image s w pixel :=
    fun w hwm => mul_nonneg (hnonneg w hwm) (window_alpha_confidences_bounds E image s w pixel).1
  have hS0 : 0 ≤ (scales.map (fun w => w.weight *
        window_alpha_confidences E image s w pixel)).sum := by
    apply List.sum_nonneg
    intro x hx
    obtain ⟨w, hwm, rfl⟩ := List.mem_map.mp hx
    exact hcoef w hwm
  have hSpos := lt_of_le_of_ne hS0 (Ne.symm hsum)
  apply clamp_of_mem
  · apply div_nonneg _ hS0
    apply List.sum_nonneg
    intro x hx
    obtain ⟨w, hwm, rfl⟩ := List.mem_map.mp hx
    exact mul_nonneg (hcoef w hwm) (clamp_bounds _).1
  · rw [div_le_one hSpos]
    apply List.sum_le_sum
    intro w hwm
    have := (clamp_bounds (reconstruction E image s w pixel)).2
    nlinarith [hcoef w hwm]

/-- The stand-in for `exp` of `plainCollaborators` is at most 1 on the non-positive numbers. -/
theorem plain_exp_le_one : ∀ x : ℚ, x ≤ 0 → plainCollaborators.exp x ≤ 1 := by
  intro x hx
  simp only [plainCollaborators, hx, if_true]
  rw [div_le_one (by linarith)]
  linarith

/-- On a 1×1 image the window of side 7 around the pixel is the pixel itself. -/
theorem windowPixels_single : windowPixels 1 1 7 0 = {0} := by decide

/-- The matrix `image_var` of the gray 1×1 image is the ridge term alone. -/
theorem image_var_gray (i j : Fin 3) :
    image_var plainCollaborators grayPixelImage halfState ⟨3, 1 / 100000, 1⟩ 0 i j =
      if i = j then 1 / 100000 else 0 := by
  simp [image_var, image_vars, image_means, alpha_confidence_means, windowMeans,
    plainCollaborators, boxWindowMeans, grayPixelImage, windowPixels_single, halfState,
    image_values, colorAt, uchar_val_128]

/-- A weighted Cauchy–Schwarz inequality: the square of a weighted sum is at most the total weight times the weighted sum of squares. -/
theorem weighted_sq_sum_le (S : Finset Nat) (g y : Nat → ℚ) (hg : ∀ p ∈ S, 0 ≤ g p)
    (hpos : 0 < ∑ p in S, g p) :
    (∑ p in S, g p * y p) ^ 2 ≤ (∑ p in S, g p) * ∑ p in S, g p * y p ^ 2 := by
  set W := ∑ p in S, g p with hW
  set T := ∑ p in S, g p * y p with hT
  set V := ∑ p in S, g p * y p ^ 2 with hV
  have hexp : ∑ p in S, g p * (W * y p - T) ^ 2 = W * (W * V - T ^ 2) := by
    have h1 : ∀ p ∈ S, g p * (W * y p - T) ^ 2 =
        W ^ 2 * (g p * y p ^ 2) - 2 * W * T * (g p * y p) + T ^ 2 * g p := by
      intro p _; ring
    rw [Finset.sum_congr rfl h1, Finset.sum_add_distrib, Finset.sum_sub_distrib,
      ← Finset.mul_sum, ← Finset.mul_sum, ← Finset.mul_sum]
    ring
  have hnn : 0 ≤ ∑ p in S, g p * (W * y p - T) ^ 2 :=
    Finset.sum_nonneg (fun p hp => mul_nonneg (hg p hp) (sq_nonneg _))
  rw [hexp] at hnn
  have := nonneg_of_mul_nonneg_right hnn hpos
  linarith

/-- With the box mean of the spec, an entry of `image_var` is the confidence-weighted covariance of two colour channels over the window plus the ridge term. -/
theorem image_var_entry (E : Collaborators) (image : Mat Vec3b) (s : AlphaState)
    (w : WindowScale) (pixel : Nat) (hE : E.calcWindowMeansAndVars = boxWindowMeans)
    (hpos : 0 < ∑ p in windowPixels image.cols image.rows (w.radius * 2 + 1) pixel,
      s.alpha_confidences p) (i j : Fin 3) :
    image_var E image s w pixel i j =
      (∑ p in windowPixels image.cols image.rows (w.radius * 2 + 1) pixel,
          image_values image i p * image_values image j p * s.alpha_confidences p) /
        (∑ p in windowPixels image.cols image.rows (w.radius * 2 + 1) pixel,
          s.alpha_confidences p) -
      (∑ p in windowPixels image.cols image.rows (w.radius * 2 + 1) pixel,
          image_values image i p * s.alpha_confidences p) /
        (∑ p in windowPixels image.cols image.rows (w.radius * 2 + 1) pixel,
          s.alpha_confidences p) *
      ((∑ p in windowPixels image.cols image.rows (w.radius * 2 + 1) pixel,
          image_values image j p * s.alpha_confidences p) /
        (∑ p in windowPixels image.cols image.rows (w.radius * 2 + 1) pixel,
          s.alpha_confidences p)) +
      w.epsilon * (if i = j then 1 else 0) := by
  have hne : (windowPixels image.cols image.rows (w.radius * 2 + 1) pixel).Nonempty := by
    by_contra h
    rw [Finset.not_nonempty_iff_eq_empty] at h
    rw [h] at hpos
    simp at hpos
  have hn : (((windowPixels image.cols image.rows (w.radius * 2 + 1) pixel).card : ℚ)) ≠ 0 := by
    have := Finset.card_pos.mpr hne
    positivity
  simp only [image_var, image_vars, image_means, alpha_confidence_means, windowMeans, hE,
    boxWindowMeans]
  rw [div_div_div_cancel_right₀ hn, div_div_div_cancel_right₀ hn, div_div_div_cancel_right₀ hn]

/-- A weighted covariance matrix of three fields plus a positive ridge term has a positive quadratic form. -/
theorem ridge_quadratic_form_pos (S : Finset Nat) (g : Nat → ℚ) (I : Fin 3 → Nat → ℚ)
    (eps : ℚ) (M : Fin 3 → Fin 3 → ℚ) (hg : ∀ p ∈ S, 0 ≤ g p) (hpos : 0 < ∑ p in S, g p)
    (heps : 0 < eps)
    (hM : ∀ i j, M i j = (∑ p in S, I i p * I j p * g p) / (∑ p in S, g p) -
      (∑ p in S, I i p * g p) / (∑ p in S, g p) * ((∑ p in S, I j p * g p) / (∑ p in S, g p)) +
      eps * (if i = j then 1 else 0))
    (x : Fin 3 → ℚ) (hx : x ≠ 0) :
    0 < ∑ i : Fin 3, ∑ j : Fin 3, x i * M i j * x j := by
  set W := ∑ p in S, g p with hW
  have hV : ∑ p in S, g p * (x 0 * I 0 p + x 1 * I 1 p + x 2 * I 2 p) ^ 2 =
      ∑ i : Fin 3, ∑ j : Fin 3, x i * x j * ∑ p in S, I i p * I j p * g p := by
    simp only [Fin.sum_univ_three, Finset.mul_sum, ← Finset.sum_add_distrib]
    apply Finset.sum_congr rfl
    intro p _
    ring
  have hT : ∑ p in S, g p * (x 0 * I 0 p + x 1 * I 1 p + x 2 * I 2 p) =
      ∑ i : Fin 3, x i * ∑ p in S, I i p * g p := by
    simp only [Fin.sum_univ_three, Finset.mul_sum, ← Finset.sum_add_distrib]
    apply Finset.sum_congr rfl
    intro p _
    ring
  have hcs := weighted_sq_sum_le S g (fun p => x 0 * I 0 p + x 1 * I 1 p + x 2 * I 2 p) hg hpos
  simp only [] at hcs
  rw [hV, hT, ← hW] at hcs
  have hWne : W ≠ 0 := ne_of_gt hpos
  have hquad : ∑ i : Fin 3, ∑ j : Fin 3, x i * M i j * x j =
      ((W * ∑ i : Fin 3, ∑ j : Fin 3, x i * x j * ∑ p in S, I i p * I j p * g p) -
        (∑ i : Fin 3, x i * ∑ p in S, I i p * g p) ^ 2) / W ^ 2 +
      eps * (x 0 ^ 2 + x 1 ^ 2 + x 2 ^ 2) := by
    simp only [hM, Fin.sum_univ_three]
    simp
    field_simp
    ring
  rw [hquad]
  have h1 : 0 ≤ ((W * ∑ i : Fin 3, ∑ j : Fin 3, x i * x j * ∑ p in S, I i p * I j p * g p) -
        (∑ i : Fin 3, x i * ∑ p in S, I i p * g p) ^ 2) / W ^ 2 := by
    apply div_nonneg _ (sq_nonneg _)
    linarith
  have h2 : 0 < x 0 ^ 2 + x 1 ^ 2 + x 2 ^ 2 := by
    have hex : ∃ c, x c ≠ 0 := by
      by_contra hcon
      push_neg at hcon
      exact hx (funext hcon)
    obtain ⟨c, hc⟩ := hex
    have hcpos := sq_pos_of_ne_zero hc
    fin_cases c
    · have := sq_nonneg (x 1); have := sq_nonneg (x 2)
      simp only [Fin.zero_eta] at hcpos
      linarith
    · have := sq_nonneg (x 0); have := sq_nonneg (x 2)
      simp only [Fin.mk_one] at hcpos
      linarith
    · have := sq_nonneg (x 0); have := sq_nonneg (x 1)
      have h22 : (⟨2, by decide⟩ : Fin 3) = 2 := rfl
      rw [h22] at hcpos
      linarith
  have := mul_pos heps h2
  linarith

/-! ## The claims -/

/-- Claim C1: for every image, every trimap and whatever the collaborators (guided filter,
box-mean helper, matrix inverse, boundary maps, `exp`, `rand`) return, a pixel whose trimap
value is above 200 has `alpha_values = 1` and `alpha_confidences = 1` in the state of
`calcAlphaImage` after the initial estimate (`k = 0`) and after iteration `k` for every `k`,
in particular after each of the 10 iterations. -/
theorem foreground_pixels_fixed (E : Collaborators) (image : Mat Vec3b) (trimap : Mat uchar)
    (k pixel : Nat) (hfg : 200 < trimapColor image trimap pixel) :
    (calcAlphaImageState E image trimap k).alpha_values pixel = 1 ∧
      (calcAlphaImageState E image trimap k).alpha_confidences pixel = 1 :=
  refineState_foreground E image trimap _ k pixel hfg

/-- Claim C1 at the 1×1 image with a foreground pixel, after the tenth iteration. -/
theorem foreground_pixels_fixed_witness :
    (calcAlphaImageState plainCollaborators grayPixelImage foregroundTrimap 10).alpha_values 0 = 1 ∧
      (calcAlphaImageState plainCollaborators grayPixelImage foregroundTrimap 10).alpha_confidences 0
        = 1 :=
  foreground_pixels_fixed plainCollaborators grayPixelImage foregroundTrimap 10 0 (by decide)

/-- Claim C2: for every image and trimap and whatever the collaborators return, a pixel whose
trimap value is below 100 has `alpha_values = 0` and `alpha_confidences = 1` in the state of
`calcAlphaImage` after the initial estimate (`k = 0`) and after iteration `k` for every `k`,
in particular after each of the 10 iterations. -/
theorem background_pixels_fixed (E : Collaborators) (image : Mat Vec3b) (trimap : Mat uchar)
    (k pixel : Nat) (hbg : trimapColor image trimap pixel < 100) :
    (calcAlphaImageState E image trimap k).alpha_values pixel = 0 ∧
      (calcAlphaImageState E image trimap k).alpha_confidences pixel = 1 :=
  refineState_background E image trimap _ k pixel hbg

/-- Claim C2 at the 1×1 image with a background pixel, after the tenth iteration. -/
theorem background_pixels_fixed_witness :
    (calcAlphaImageState plainCollaborators grayPixelImage backgroundTrimap 10).alpha_values 0 = 0 ∧
      (calcAlphaImageState plainCollaborators grayPixelImage backgroundTrimap 10).alpha_confidences 0
        = 1 :=
  background_pixels_fixed plainCollaborators grayPixelImage backgroundTrimap 10 0 (by decide)

/-- Claim C4 fails as stated.  First, on the 1×1 image with an unknown pixel
`calcAlphaImage` builds no scale (the width is below 8), the confidence sum of the pixel is
zero and the confidence written by the first iteration is 0, outside [0.1, 1].  Second, with
the scale weights 1.0 and -1.0 and window confidences 255/256 and 128/256 the confidence
written is 383/256, above 1. -/
theorem confidence_bounds_fail :
    ¬ (1 / 10 ≤ (calcAlphaImageState plainCollaborators grayPixelImage unknownTrimap 1).alpha_confidences 0 ∧
      (calcAlphaImageState plainCollaborators grayPixelImage unknownTrimap 1).alpha_confidences 0 ≤ 1) ∧
    ¬ (1 / 10 ≤ (refineState scaleProbe grayPixelImage unknownTrimap
          [⟨1, 1 / 100000, 1⟩, ⟨2, 1 / 100000, -1⟩] 1).alpha_confidences 0 ∧
      (refineState scaleProbe grayPixelImage unknownTrimap
          [⟨1, 1 / 100000, 1⟩, ⟨2, 1 / 100000, -1⟩] 1).alpha_confidences 0 ≤ 1) := by
  constructor
  · have h : (calcAlphaImageState plainCollaborators grayPixelImage unknownTrimap 1).alpha_confidences 0 = 0 := by
      simp [calcAlphaImageState, refineState, refineIteration, reassert, fuse, accumulate,
        windowScales, grayPixelImage, unknownTrimap, foreground_mask, background_mask, trimapColor,
        zeroSums, uchar_val_128]
    rw [h]; norm_num
  · have h : (refineState scaleProbe grayPixelImage unknownTrimap
          [⟨1, 1 / 100000, 1⟩, ⟨2, 1 / 100000, -1⟩] 1).alpha_confidences 0 = 383 / 256 := by
      simp [refineState, refineIteration, reassert, fuse, accumulate, addScale,
        grayPixelImage, unknownTrimap, foreground_mask, background_mask, trimapColor,
        zeroSums, window_weight, window_alpha_confidences, scaleProbe, truncToInt_one,
        truncToInt_neg_one, MIN_ALPHA_CONFIDENCE, uchar_val_128, uchar_val_255]
      norm_num
    rw [h]; norm_num

/-- Claim C4 as amended: for every image, trimap, list of scales with non-negative weights and
every output of the guided filter, when `exp` is at most 1 on the non-positive numbers:
the confidence of every pixel lies in [0.1, 1] after the initial estimate; after iteration
`k + 1` it lies in [0.1, 1] at every foreground pixel, every background pixel and every pixel
whose confidence sum `alpha_confidence_sums` of that iteration is nonzero; and it is exactly
0 at an unknown pixel whose confidence sum is zero. -/
theorem confidence_bounds (E : Collaborators) (image : Mat Vec3b) (trimap : Mat uchar)
    (scales : List WindowScale) (k pixel : Nat)
    (hexp : ∀ x : ℚ, x ≤ 0 → E.exp x ≤ 1) (hw : ∀ w ∈ scales, 0 ≤ w.weight) :
    (1 / 10 ≤ (refineState E image trimap scales 0).alpha_confidences pixel ∧
      (refineState E image trimap scales 0).alpha_confidences pixel ≤ 1) ∧
    ((200 < trimapColor image trimap pixel ∨ trimapColor image trimap pixel < 100 ∨
        (accumulate E image (refineState E image trimap scales k) scales).alpha_confidence_sums
          pixel ≠ 0) →
      1 / 10 ≤ (refineState E image trimap scales (k + 1)).alpha_confidences pixel ∧
        (refineState E image trimap scales (k + 1)).alpha_confidences pixel ≤ 1) ∧
    (100 ≤ trimapColor image trimap pixel → trimapColor image trimap pixel ≤ 200 →
      (accumulate E image (refineState E image trimap scales k) scales).alpha_confidence_sums
          pixel = 0 →
      (refineState E image trimap scales (k + 1)).alpha_confidences pixel = 0) := by
  refine ⟨initial_confidence_bounds E image trimap pixel hexp, ?_, ?_⟩
  · intro h
    by_cases hfg : 200 < trimapColor image trimap pixel
    · rw [(refineState_foreground E image trimap scales (k + 1) pixel hfg).2]; norm_num
    by_cases hbg : trimapColor image trimap pixel < 100
    · rw [(refineState_background E image trimap scales (k + 1) pixel hbg).2]; norm_num
    have hne : (accumulate E image (refineState E image trimap scales k) scales).alpha_confidence_sums
          pixel ≠ 0 := by
      rcases h with h | h | h
      · exact absurd h hfg
      · exact absurd h hbg
      · exact h
    have := fuse_confidence_bounds E image (refineState E image trimap scales k) scales (k + 1)
      pixel hw hne
    simpa [refineState, refineIteration, reassert, foreground_mask, background_mask, hfg, hbg]
      using this
  · intro hlo hhi h0
    have hfg : ¬ 200 < trimapColor image trimap pixel := by omega
    have hbg : ¬ trimapColor image trimap pixel < 100 := by omega
    simp [refineState, refineIteration, reassert, foreground_mask, background_mask, hfg, hbg,
      fuse, h0]

/-- Claim C4 as amended, at the 1×1 image with an unknown pixel and one scale of weight 1.0
whose window confidence is 255/256: the confidence sum is nonzero and the confidence after
the first iteration lies in [0.1, 1]. -/
theorem confidence_bounds_witness :
    1 / 10 ≤ (refineState scaleProbe grayPixelImage unknownTrimap
        [⟨1, 1 / 100000, 1⟩] 1).alpha_confidences 0 ∧
      (refineState scaleProbe grayPixelImage unknownTrimap
        [⟨1, 1 / 100000, 1⟩] 1).alpha_confidences 0 ≤ 1 :=
  (confidence_bounds scaleProbe grayPixelImage unknownTrimap [⟨1, 1 / 100000, 1⟩] 0 0
    plain_exp_le_one (by
      intro w hw
      rw [List.mem_singleton] at hw
      rw [hw]
      norm_num)).2.1 (Or.inr (Or.inr (by
        simp [accumulate, addScale, zeroSums, window_weight, window_alpha_confidences,
          scaleProbe, truncToInt_one, uchar_val_255])))

/-- Claim C5: with `C`, `F`, `B` the colours of the pixel, of the foreground pixel and of the
background pixel, `calcAlpha` returns 1/2 when `F = B` and otherwise
`clamp(Σc (C_c − B_c)(F_c − B_c) / Σc (F_c − B_c)², 0, 1)`; and the test
`abs(alpha_denominator) > 0.000001` holds exactly when `F ≠ B`. -/
theorem calcAlpha_formula (image : Mat Vec3b) (pixel foreground_pixel background_pixel : Nat) :
    calcAlpha image pixel foreground_pixel background_pixel =
      (if colorAt image foreground_pixel = colorAt image background_pixel then 1 / 2
       else max (min
        ((∑ c : Fin 3, (((colorAt image pixel c).val : ℚ) -
              ((colorAt image background_pixel c).val : ℚ)) *
            (((colorAt image foreground_pixel c).val : ℚ) -
              ((colorAt image background_pixel c).val : ℚ))) /
          (∑ c : Fin 3, (((colorAt image foreground_pixel c).val : ℚ) -
              ((colorAt image background_pixel c).val : ℚ)) ^ 2)) 1) 0) ∧
    (|alphaDenominator (colorAt image foreground_pixel) (colorAt image background_pixel)|
        > 1 / 1000000 ↔
      colorAt image foreground_pixel ≠ colorAt image background_pixel) := by
  refine ⟨?_, alphaDenominator_test_iff _ _⟩
  unfold calcAlpha
  simp only [alphaDenominator_test_iff]
  by_cases h : colorAt image foreground_pixel = colorAt image background_pixel
  · simp only [h, ne_eq, not_true_eq_false, if_false, if_true]
    norm_num
  · simp only [h, ne_eq, not_false_eq_true, if_true, if_false]
    simp [alphaNumerator, alphaDenominator]

/-- Claim C6: for every unknown pixel, every state and every iteration, with the sequence of
window scales that `calcAlphaImage` builds and its weights `weight_s`: whenever
`Σ_s weight_s · windowConfidence_s[p]` is nonzero, the alpha written by the fusion step is
`Σ_s weight_s · windowConfidence_s[p] · candidate_s[p] / Σ_s weight_s · windowConfidence_s[p]`,
where `candidate_s[p]` is the linear reconstruction of the scale clamped to [0, 1]; the same
holds for every sequence of scales whose weights are whole numbers. -/
theorem fused_alpha_formula (E : Collaborators) (image : Mat Vec3b) (trimap : Mat uchar)
    (iteration : Nat) (s : AlphaState) (pixel : Nat)
    (hlo : 100 ≤ trimapColor image trimap pixel) (hhi : trimapColor image trimap pixel ≤ 200) :
    (((windowScales image.cols).map (fun w => w.weight *
        window_alpha_confidences E image s w pixel)).sum ≠ 0 →
      (refineIteration E image trimap (windowScales image.cols) iteration s).alpha_values pixel =
        ((windowScales image.cols).map (fun w => w.weight *
          window_alpha_confidences E image s w pixel *
            max (min (reconstruction E image s w pixel) 1) 0)).sum /
        ((windowScales image.cols).map (fun w => w.weight *
          window_alpha_confidences E image s w pixel)).sum) ∧
    (∀ scales : List WindowScale, (∀ w ∈ scales, ∃ n : Nat, w.weight = (n : ℚ)) →
      (scales.map (fun w => w.weight * window_alpha_confidences E image s w pixel)).sum ≠ 0 →
      (refineIteration E image trimap scales iteration s).alpha_values pixel =
        (scales.map (fun w => w.weight * window_alpha_confidences E image s w pixel *
            max (min (reconstruction E image s w pixel) 1) 0)).sum /
        (scales.map (fun w => w.weight * window_alpha_confidences E image s w pixel)).sum) :=
  ⟨fun hsum => fused_alpha_whole_weights E image trimap _ iteration s pixel hlo hhi
      (windowScales_whole_weights image.cols) hsum,
    fun scales hint hsum =>
      fused_alpha_whole_weights E image trimap scales iteration s pixel hlo hhi hint hsum⟩

/-- Claim C6 at an 8×1 image with unknown pixels: `calcAlphaImage` builds the scale
(3, 0.00001, 1.0), the window confidence is 128/256 and the confidence sum is nonzero. -/
theorem fused_alpha_formula_witness :
    (refineIteration scaleProbe wideImage wideTrimap (windowScales wideImage.cols) 1
        (initialEstimate scaleProbe wideImage wideTrimap)).alpha_values 0 =
      ((windowScales wideImage.cols).map (fun w => w.weight *
          window_alpha_confidences scaleProbe wideImage
            (initialEstimate scaleProbe wideImage wideTrimap) w 0 *
            max (min (reconstruction scaleProbe wideImage
              (initialEstimate scaleProbe wideImage wideTrimap) w 0) 1) 0)).sum /
        ((windowScales wideImage.cols).map (fun w => w.weight *
          window_alpha_confidences scaleProbe wideImage
            (initialEstimate scaleProbe wideImage wideTrimap) w 0)).sum :=
  (fused_alpha_formula scaleProbe wideImage wideTrimap 1
    (initialEstimate scaleProbe wideImage wideTrimap) 0 (by decide) (by decide)).1 (by
      have hs : windowScales wideImage.cols = [⟨3, 1 / 100000, 1⟩] := by
        simp [windowScales, wideImage]
      rw [hs]
      simp [window_alpha_confidences, scaleProbe, uchar_val_128])

/-- Claim C7: for every pixel and scale, with `M = image_var` (the entry of `image_vars` plus
epsilon on the diagonal) and `calcInverse` returning an inverse of `M`, the slope `a_value`
satisfies `M · a = cov_ca` where `cov_ca[c] = image_alpha_means[c] − image_means[c] ·
alpha_means`, the intercept is `b = alpha_means − Σc a_c · image_means[c]`, and so
`b + a · meanColor = meanAlpha`. -/
theorem local_linear_fit (E : Collaborators) (image : Mat Vec3b) (s : AlphaState)
    (w : WindowScale) (pixel : Nat)
    (hinv : ∀ i j : Fin 3, ∑ k : Fin 3, image_var E image s w pixel i k *
      E.calcInverse (image_var E image s w pixel) k j = if i = j then 1 else 0) :
    (∀ i j : Fin 3, image_var E image s w pixel i j =
      image_vars E image s w.radius i j pixel + w.epsilon * (if i = j then 1 else 0)) ∧
    (∀ c : Fin 3, image_alpha_covariance E image s w.radius pixel c =
      image_alpha_means E image s w.radius c pixel -
        image_means E image s w.radius c pixel * alpha_means E image s w.radius pixel) ∧
    (∀ i : Fin 3, ∑ j : Fin 3, image_var E image s w pixel i j * a_value E image s w pixel j =
      image_alpha_covariance E image s w.radius pixel i) ∧
    b_value E image s w pixel = alpha_means E image s w.radius pixel -
      ∑ c : Fin 3, a_value E image s w pixel c * image_means E image s w.radius c pixel ∧
    b_value E image s w pixel +
      ∑ c : Fin 3, a_value E image s w pixel c * image_means E image s w.radius c pixel =
      alpha_means E image s w.radius pixel := by
  refine ⟨fun _ _ => rfl, fun _ => rfl, ?_, rfl, ?_⟩
  · intro i
    simp only [a_value, Finset.mul_sum]
    rw [Finset.sum_comm]
    have : ∀ k : Fin 3, ∑ j : Fin 3, image_var E image s w pixel i j *
        (E.calcInverse (image_var E image s w pixel) j k *
          image_alpha_covariance E image s w.radius pixel k) =
        (if i = k then 1 else 0) * image_alpha_covariance E image s w.radius pixel k := by
      intro k
      rw [← hinv i k, Finset.sum_mul]
      apply Finset.sum_congr rfl
      intro j _
      ring
    simp only [this]
    simp
  · simp only [b_value]
    ring

/-- Claim C7 at the gray 1×1 image with the cofactor inverse: the first row of `M · a = cov_ca`
and the reproduction of the window mean. -/
theorem local_linear_fit_witness :
    (∑ j : Fin 3, image_var plainCollaborators grayPixelImage halfState ⟨3, 1 / 100000, 1⟩ 0 0 j *
        a_value plainCollaborators grayPixelImage halfState ⟨3, 1 / 100000, 1⟩ 0 j =
      image_alpha_covariance plainCollaborators grayPixelImage halfState 3 0 0) ∧
    b_value plainCollaborators grayPixelImage halfState ⟨3, 1 / 100000, 1⟩ 0 +
      ∑ c : Fin 3, a_value plainCollaborators grayPixelImage halfState ⟨3, 1 / 100000, 1⟩ 0 c *
        image_means plainCollaborators grayPixelImage halfState 3 c 0 =
      alpha_means plainCollaborators grayPixelImage halfState 3 0 :=
  (fun h => ⟨h.2.2.1 0, h.2.2.2.2⟩)
    (local_linear_fit plainCollaborators grayPixelImage halfState ⟨3, 1 / 100000, 1⟩ 0 (by
      intro i j
      have hM : image_var plainCollaborators grayPixelImage halfState ⟨3, 1 / 100000, 1⟩ 0 =
          fun i j => if i = j then 1 / 100000 else 0 := by
        funext i j; exact image_var_gray i j
      rw [hM]
      fin_cases i <;> fin_cases j <;>
        simp [plainCollaborators, cofactorInverse, Fin.sum_univ_three] <;> norm_num))

/-- Claim C8: with the box mean of the spec as the one-field `calcWindowMeansAndVars`, for
every epsilon > 0, every image and every non-negative confidence field, at every pixel whose
window has a positive confidence sum, the matrix handed to `calcInverse` is the
confidence-weighted windowed covariance `E_w[I_i·I_j] − E_w[I_i]·E_w[I_j]` plus
`epsilon · I`; it is symmetric, its quadratic form is positive at every nonzero vector, and
its determinant is not zero. -/
theorem ridge_matrix_positive_definite (E : Collaborators) (image : Mat Vec3b) (s : AlphaState)
    (w : WindowScale) (pixel : Nat) (hE : E.calcWindowMeansAndVars = boxWindowMeans)
    (heps : 0 < w.epsilon) (hconf : ∀ p, 0 ≤ s.alpha_confidences p)
    (hpos : 0 < ∑ p in windowPixels image.cols image.rows (w.radius * 2 + 1) pixel,
      s.alpha_confidences p) :
    (∀ i j : Fin 3, image_var E image s w pixel i j =
      (∑ p in windowPixels image.cols image.rows (w.radius * 2 + 1) pixel,
          image_values image i p * image_values image j p * s.alpha_confidences p) /
        (∑ p in windowPixels image.cols image.rows (w.radius * 2 + 1) pixel,
          s.alpha_confidences p) -
      (∑ p in windowPixels image.cols image.rows (w.radius * 2 + 1) pixel,
          image_values image i p * s.alpha_confidences p) /
        (∑ p in windowPixels image.cols image.rows (w.radius * 2 + 1) pixel,
          s.alpha_confidences p) *
      ((∑ p in windowPixels image.cols image.rows (w.radius * 2 + 1) pixel,
          image_values image j p * s.alpha_confidences p) /
        (∑ p in windowPixels image.cols image.rows (w.radius * 2 + 1) pixel,
          s.alpha_confidences p)) +
      w.epsilon * (if i = j then 1 else 0)) ∧
    (∀ i j : Fin 3, image_var E image s w pixel i j = image_var E image s w pixel j i) ∧
    (∀ x : Fin 3 → ℚ, x ≠ 0 →
      0 < ∑ i : Fin 3, ∑ j : Fin 3, x i * image_var E image s w pixel i j * x j) ∧
    Matrix.det (Matrix.of (image_var E image s w pixel)) ≠ 0 := by
  have hentry := image_var_entry E image s w pixel hE hpos
  have hpd : ∀ x : Fin 3 → ℚ, x ≠ 0 →
      0 < ∑ i : Fin 3, ∑ j : Fin 3, x i * image_var E image s w pixel i j * x j :=
    fun x hx => ridge_quadratic_form_pos _ s.alpha_confidences (image_values image) w.epsilon
      (image_var E image s w pixel) (fun p _ => hconf p) hpos heps hentry x hx
  refine ⟨hentry, ?_, hpd, ?_⟩
  · intro i j
    rw [hentry i j, hentry j i]
    have hA : ∑ p in windowPixels image.cols image.rows (w.radius * 2 + 1) pixel,
          image_values image i p * image_values image j p * s.alpha_confidences p =
        ∑ p in windowPixels image.cols image.rows (w.radius * 2 + 1) pixel,
          image_values image j p * image_values image i p * s.alpha_confidences p :=
      Finset.sum_congr rfl (fun p _ => by ring)
    rw [hA]
    by_cases hij : i = j
    · subst hij; ring
    · have hji : ¬ j = i := fun h => hij h.symm
      simp only [hij, hji, if_false]
      ring
  · intro hdet
    obtain ⟨v, hv, hmul⟩ := Matrix.exists_mulVec_eq_zero_iff.mpr hdet
    have hq := hpd v hv
    have hzero : ∑ i : Fin 3, ∑ j : Fin 3, v i * image_var E image s w pixel i j * v j = 0 := by
      have : ∀ i : Fin 3, ∑ j : Fin 3, v i * image_var E image s w pixel i j * v j =
          v i * (Matrix.mulVec (Matrix.of (image_var E image s w pixel)) v) i := by
        intro i
        simp only [Matrix.mulVec, Matrix.dotProduct, Matrix.of_apply, Finset.mul_sum]
        apply Finset.sum_congr rfl
        intro j _
        ring
      simp only [this, hmul]
      simp
    linarith

/-- Claim C8 at the gray 1×1 image: the matrix handed to `calcInverse` is not singular. -/
theorem ridge_matrix_positive_definite_witness :
    Matrix.det (Matrix.of
      (image_var plainCollaborators grayPixelImage halfState ⟨3, 1 / 100000, 1⟩ 0)) ≠ 0 :=
  (ridge_matrix_positive_definite plainCollaborators grayPixelImage halfState
    ⟨3, 1 / 100000, 1⟩ 0 rfl (by norm_num) (fun p => by simp [halfState])
    (by
      show 0 < ∑ p in windowPixels 1 1 7 0, halfState.alpha_confidences p
      rw [windowPixels_single]
      simp [halfState])).2.2.2

/-- Claim C9: for every unknown pixel (trimap value in 100..200), with `F` and `B` the colours
of its nearest foreground and background pixels and `alpha = calcAlpha(C, F, B)` the initial
alpha, the initial confidence is `max(exp(−residual / 200), 0.1)` where
`residual = Σc (C_c − (alpha·F_c + (1−alpha)·B_c))²`. -/
theorem initial_confidence_formula (E : Collaborators) (image : Mat Vec3b) (trimap : Mat uchar)
    (pixel : Nat) (hlo : 100 ≤ trimapColor image trimap pixel)
    (hhi : trimapColor image trimap pixel ≤ 200) :
    (calcAlphaImageState E image trimap 0).alpha_confidences pixel =
      max (E.exp (-(∑ c : Fin 3, (((colorAt image pixel c).val : ℚ) -
        ((calcAlphaImageState E image trimap 0).alpha_values pixel *
            ((colorAt image (foreground_boundary_map E image trimap pixel) c).val : ℚ) +
          (1 - (calcAlphaImageState E image trimap 0).alpha_values pixel) *
            ((colorAt image (background_boundary_map E image trimap pixel) c).val : ℚ))) ^ 2)
        / 200)) (1 / 10) ∧
    (calcAlphaImageState E image trimap 0).alpha_values pixel =
      calcAlpha image pixel (foreground_boundary_map E image trimap pixel)
        (background_boundary_map E image trimap pixel) := by
  have h1 : ¬ 200 < trimapColor image trimap pixel := by omega
  have h2 : ¬ trimapColor image trimap pixel < 100 := by omega
  simp only [calcAlphaImageState, refineState, initialEstimate, foreground_mask, background_mask,
    gt_iff_lt, h1, h2, decide_False, Bool.false_eq_true, if_false, colorDiff, COLOR_DIFF_VAR,
    MIN_ALPHA_CONFIDENCE]
  norm_num

/-- Claim C9 at the 1×1 image with an unknown pixel. -/
theorem initial_confidence_formula_witness :
    (calcAlphaImageState plainCollaborators grayPixelImage unknownTrimap 0).alpha_confidences 0 =
      max (plainCollaborators.exp (-(∑ c : Fin 3, (((colorAt grayPixelImage 0 c).val : ℚ) -
        ((calcAlphaImageState plainCollaborators grayPixelImage unknownTrimap 0).alpha_values 0 *
            ((colorAt grayPixelImage
              (foreground_boundary_map plainCollaborators grayPixelImage unknownTrimap 0) c).val : ℚ) +
          (1 - (calcAlphaImageState plainCollaborators grayPixelImage unknownTrimap 0).alpha_values 0) *
            ((colorAt grayPixelImage
              (background_boundary_map plainCollaborators grayPixelImage unknownTrimap 0) c).val : ℚ)))
          ^ 2) / 200)) (1 / 10) :=
  (initial_confidence_formula plainCollaborators grayPixelImage unknownTrimap 0
    (by decide) (by decide)).1

/-- Claim C10, the code at a failing input: on a 2×1 image with window size 3, the weight 0.5
at both pixels and the field equal to 1 everywhere, `calcWindowMeansAndVars` returns
`means[0][0] = 2`: the unweighted sum 2 of the field divided by the truncated weight sum 1. -/
theorem constant_field_mean_off :
    (calcWindowMeansAndVars [fun _ => 1] (fun _ => 1 / 2) 2 1 3).means 0 0 = 2 := by
  have hbox : clippedBox 2 1 (((0 % 2 : Nat) : Int) - Int.tdiv (3 - 1) 2)
      (((0 / 2 : Nat) : Int) - Int.tdiv (3 - 1) 2) (((0 % 2 : Nat) : Int) + Int.tdiv (3 - 1) 2)
      (((0 / 2 : Nat) : Int) + Int.tdiv (3 - 1) 2) = {0, 1} := by decide
  simp only [calcWindowMeansAndVars, windowArea, calcBoxIntegration, calcBoxIntegrationMask,
    channel, hbox]
  have h1 : truncToInt (∑ pixel in ({0, 1} : Finset Nat), (1 / 2 : ℚ)) = 1 := by
    have : (∑ pixel in ({0, 1} : Finset Nat), (1 / 2 : ℚ)) = ((1 : Int) : ℚ) := by
      simp
    rw [this, truncToInt_intCast]
  rw [h1]
  simp

/-! ## Auxiliary lemmas for the remaining claims -/

/-- Ridge shrinkage written out for the entries of a 3×3 system: if `(S + e_1·I)·x = c = (S + e_2·I)·y` with the quadratic form of `S` non-negative at `x − y`, `0 < e_1 < e_2` and `c ≠ 0`, then `y` is strictly shorter than `x`. -/
theorem ridge_entries_shrink (s00 s01 s02 s10 s11 s12 s20 s21 s22 e_1 e_2
    x0 x1 x2 y0 y1 y2 c0 c1 c2 : ℚ)
    (hq : 0 ≤ (x0 - y0) * (s00 * (x0 - y0) + s01 * (x1 - y1) + s02 * (x2 - y2)) +
      (x1 - y1) * (s10 * (x0 - y0) + s11 * (x1 - y1) + s12 * (x2 - y2)) +
      (x2 - y2) * (s20 * (x0 - y0) + s21 * (x1 - y1) + s22 * (x2 - y2)))
    (he1 : 0 < e_1) (he : e_1 < e_2) (hc : c0 ≠ 0 ∨ c1 ≠ 0 ∨ c2 ≠ 0)
    (h10 : (s00 + e_1) * x0 + s01 * x1 + s02 * x2 = c0)
    (h11 : s10 * x0 + (s11 + e_1) * x1 + s12 * x2 = c1)
    (h12 : s20 * x0 + s21 * x1 + (s22 + e_1) * x2 = c2)
    (h20 : (s00 + e_2) * y0 + s01 * y1 + s02 * y2 = c0)
    (h21 : s10 * y0 + (s11 + e_2) * y1 + s12 * y2 = c1)
    (h22 : s20 * y0 + s21 * y1 + (s22 + e_2) * y2 = c2) :
    y0 ^ 2 + y1 ^ 2 + y2 ^ 2 < x0 ^ 2 + x1 ^ 2 + x2 ^ 2 := by
  have hδ : 0 < e_2 - e_1 := by linarith
  have r0 : s00 * (x0 - y0) + s01 * (x1 - y1) + s02 * (x2 - y2) + e_1 * (x0 - y0) =
      (e_2 - e_1) * y0 := by linarith
  have r1 : s10 * (x0 - y0) + s11 * (x1 - y1) + s12 * (x2 - y2) + e_1 * (x1 - y1) =
      (e_2 - e_1) * y1 := by linarith
  have r2 : s20 * (x0 - y0) + s21 * (x1 - y1) + s22 * (x2 - y2) + e_1 * (x2 - y2) =
      (e_2 - e_1) * y2 := by linarith
  have hcross : (e_2 - e_1) * (y0 * (x0 - y0) + y1 * (x1 - y1) + y2 * (x2 - y2)) =
      ((x0 - y0) * (s00 * (x0 - y0) + s01 * (x1 - y1) + s02 * (x2 - y2)) +
      (x1 - y1) * (s10 * (x0 - y0) + s11 * (x1 - y1) + s12 * (x2 - y2)) +
      (x2 - y2) * (s20 * (x0 - y0) + s21 * (x1 - y1) + s22 * (x2 - y2))) +
      e_1 * ((x0 - y0) ^ 2 + (x1 - y1) ^ 2 + (x2 - y2) ^ 2) := by
    have : (e_2 - e_1) * (y0 * (x0 - y0) + y1 * (x1 - y1) + y2 * (x2 - y2)) =
        (x0 - y0) * ((e_2 - e_1) * y0) + (x1 - y1) * ((e_2 - e_1) * y1) +
          (x2 - y2) * ((e_2 - e_1) * y2) := by ring
    rw [this, ← r0, ← r1, ← r2]
    ring
  have hD : 0 < (x0 - y0) ^ 2 + (x1 - y1) ^ 2 + (x2 - y2) ^ 2 := by
    by_contra hcon
    have n0 := sq_nonneg (x0 - y0)
    have n1 := sq_nonneg (x1 - y1)
    have n2 := sq_nonneg (x2 - y2)
    have z0 : x0 - y0 = 0 := by
      have : (x0 - y0) ^ 2 = 0 := by linarith
      exact pow_eq_zero_iff (by norm_num) |>.mp this
    have z1 : x1 - y1 = 0 := by
      have : (x1 - y1) ^ 2 = 0 := by linarith
      exact pow_eq_zero_iff (by norm_num) |>.mp this
    have z2 : x2 - y2 = 0 := by
      have : (x2 - y2) ^ 2 = 0 := by linarith
      exact pow_eq_zero_iff (by norm_num) |>.mp this
    rw [z0, z1, z2] at r0 r1 r2
    have y0z : y0 = 0 := by
      have : (e_2 - e_1) * y0 = 0 := by linarith
      rcases mul_eq_zero.mp this with h | h
      · linarith
      · exact h
    have y1z : y1 = 0 := by
      have : (e_2 - e_1) * y1 = 0 := by linarith
      rcases mul_eq_zero.mp this with h | h
      · linarith
      · exact h
    have y2z : y2 = 0 := by
      have : (e_2 - e_1) * y2 = 0 := by linarith
      rcases mul_eq_zero.mp this with h | h
      · linarith
      · exact h
    rw [y0z, y1z, y2z] at h20 h21 h22
    rcases hc with h | h | h
    · apply h; linarith
    · apply h; linarith
    · apply h; linarith
  have hcross_nonneg : 0 ≤ y0 * (x0 - y0) + y1 * (x1 - y1) + y2 * (x2 - y2) := by
    have hpos : 0 ≤ (e_2 - e_1) * (y0 * (x0 - y0) + y1 * (x1 - y1) + y2 * (x2 - y2)) := by
      rw [hcross]
      have := mul_pos he1 hD
      linarith
    exact nonneg_of_mul_nonneg_right hpos hδ
  have hexpand : x0 ^ 2 + x1 ^ 2 + x2 ^ 2 = y0 ^ 2 + y1 ^ 2 + y2 ^ 2 +
      2 * (y0 * (x0 - y0) + y1 * (x1 - y1) + y2 * (x2 - y2)) +
      ((x0 - y0) ^ 2 + (x1 - y1) ^ 2 + (x2 - y2) ^ 2) := by ring
  rw [hexpand]
  linarith

/-- When `calcInverse` returns an inverse of `image_var`, the slope solves `image_var · a = image_alpha_covariance`. -/
theorem image_var_mul_a_value (E : Collaborators) (image : Mat Vec3b) (s : AlphaState)
    (w : WindowScale) (pixel : Nat)
    (hinv : ∀ i j : Fin 3, ∑ k : Fin 3, image_var E image s w pixel i k *
      E.calcInverse (image_var E image s w pixel) k j = if i = j then 1 else 0) (i : Fin 3) :
    ∑ j : Fin 3, image_var E image s w pixel i j * a_value E image s w pixel j =
      image_alpha_covariance E image s w.radius pixel i := by
  simp only [a_value, Finset.mul_sum]
  rw [Finset.sum_comm]
  have : ∀ k : Fin 3, ∑ j : Fin 3, image_var E image s w pixel i j *
      (E.calcInverse (image_var E image s w pixel) j k *
        image_alpha_covariance E image s w.radius pixel k) =
      (if i = k then 1 else 0) * image_alpha_covariance E image s w.radius pixel k := by
    intro k
    rw [← hinv i k, Finset.sum_mul]
    apply Finset.sum_congr rfl
    intro j _
    ring
  simp only [this]
  simp

/-- On a 2×1 image the window of side 7 around pixel 0 holds both pixels. -/
theorem windowPixels_pair : windowPixels 2 1 7 0 = {0, 1} := by decide

/-- The byte 0 as a number. -/
theorem uchar_val_0 : ((0 : uchar) : Nat) = 0 := rfl

/-- The colour covariance of the 2×1 image: every entry is 1/16. -/
theorem image_vars_ramp (i j : Fin 3) :
    image_vars plainCollaborators twoPixelImage rampState 3 i j 0 = 1 / 16 := by
  simp [image_vars, image_means, alpha_confidence_means, windowMeans,
    plainCollaborators, boxWindowMeans, twoPixelImage, windowPixels_pair, rampState,
    image_values, colorAt, uchar_val_128, uchar_val_0]
  norm_num

/-- The colour-alpha covariance of the 2×1 image with alpha 0 and 1: every entry is 1/8. -/
theorem image_alpha_covariance_ramp (c : Fin 3) :
    image_alpha_covariance plainCollaborators twoPixelImage rampState 3 0 c = 1 / 8 := by
  simp [image_alpha_covariance, image_alpha_means, image_alpha_values, alpha_means, image_means,
    alpha_confidence_means, windowMeans,
    plainCollaborators, boxWindowMeans, twoPixelImage, windowPixels_pair, rampState,
    image_values, colorAt, uchar_val_128, uchar_val_0]
  norm_num

/-- The matrix handed to `calcInverse` for the 2×1 image. -/
theorem image_var_ramp (epsilon weight : ℚ) :
    image_var plainCollaborators twoPixelImage rampState ⟨3, epsilon, weight⟩ 0 =
      fun i j => 1 / 16 + epsilon * (if i = j then 1 else 0) := by
  funext i j
  simp only [image_var, image_vars_ramp]

/-- The cofactor inverse inverts the matrix of the 2×1 image at epsilon 1. -/
theorem cofactorInverse_ramp_one (i j : Fin 3) :
    ∑ k : Fin 3, image_var plainCollaborators twoPixelImage rampState ⟨3, 1, 1⟩ 0 i k *
      plainCollaborators.calcInverse
        (image_var plainCollaborators twoPixelImage rampState ⟨3, 1, 1⟩ 0) k j =
      if i = j then 1 else 0 := by
  rw [image_var_ramp]
  fin_cases i <;> fin_cases j <;>
    simp [plainCollaborators, cofactorInverse, Fin.sum_univ_three] <;> norm_num

/-- The cofactor inverse inverts the matrix of the 2×1 image at epsilon 2. -/
theorem cofactorInverse_ramp_two (i j : Fin 3) :
    ∑ k : Fin 3, image_var plainCollaborators twoPixelImage rampState ⟨3, 2, 1⟩ 0 i k *
      plainCollaborators.calcInverse
        (image_var plainCollaborators twoPixelImage rampState ⟨3, 2, 1⟩ 0) k j =
      if i = j then 1 else 0 := by
  rw [image_var_ramp]
  fin_cases i <;> fin_cases j <;>
    simp [plainCollaborators, cofactorInverse, Fin.sum_univ_three] <;> norm_num

/-- The scale vectors in terms of the image width: one scale from width 8 on, none below. -/
theorem windowScales_eq (IMAGE_WIDTH : Nat) :
    windowScales IMAGE_WIDTH = if 8 ≤ IMAGE_WIDTH then [⟨3, 1 / 100000, 1⟩] else [] := by
  unfold windowScales
  by_cases h : 8 ≤ IMAGE_WIDTH
  · have : 3 < IMAGE_WIDTH / 2 := by omega
    simp [h, this]
  · have : ¬ 3 < IMAGE_WIDTH / 2 := by omega
    simp [h, this]

/-- A non-negative weight is stored as its integer part. -/
theorem window_weight_floor {w : WindowScale} (h : 0 ≤ w.weight) :
    window_weight w = ⌊w.weight⌋ := by
  simp [window_weight, truncToInt, h]

/-- Two scales with the same radius, epsilon and stored weight contribute the same to the accumulators. -/
theorem addScale_congr (E : Collaborators) (image : Mat Vec3b) (s : AlphaState) (acc : Sums)
    (a b : WindowScale) (h : SameStoredWeight a b) :
    addScale E image s acc a = addScale E image s acc b := by
  obtain ⟨ra, ea, wa⟩ := a
  obtain ⟨rb, eb, wb⟩ := b
  obtain ⟨hr, he, ha, hb, hf⟩ := h
  simp only at hr he ha hb hf
  subst hr he
  have hw : window_weight ⟨ra, ea, wa⟩ = window_weight ⟨ra, ea, wb⟩ := by
    rw [window_weight_floor ha, window_weight_floor hb]
    exact hf
  unfold addScale
  rw [hw]
  rfl

/-- Lists of scales that agree in radius, epsilon and stored weight give the same accumulators. -/
theorem accumulate_congr (E : Collaborators) (image : Mat Vec3b) (s : AlphaState)
    (scales_1 scales_2 : List WindowScale) (h : List.Forall₂ SameStoredWeight scales_1 scales_2)
    (acc : Sums) :
    scales_1.foldl (addScale E image s) acc = scales_2.foldl (addScale E image s) acc := by
  induction h generalizing acc with
  | nil => rfl
  | cons hab _ ih =>
    simp only [List.foldl_cons]
    rw [addScale_congr E image s acc _ _ hab]
    exact ih _

/-- A scale whose weight lies in [0, 1) leaves the accumulators unchanged. -/
theorem addScale_small_weight (E : Collaborators) (image : Mat Vec3b) (s : AlphaState)
    (acc : Sums) (w : WindowScale) (h0 : 0 ≤ w.weight) (h1 : w.weight < 1) :
    addScale E image s acc w = acc := by
  have hw : window_weight w = 0 := by
    rw [window_weight_floor h0, Int.floor_eq_iff]
    constructor
    · simpa using h0
    · simpa using h1
  unfold addScale
  rw [hw]
  simp

/-- For an exact mix `C = t·F + (1−t)·B` the numerator of `calcAlpha` is `t` times the denominator. -/
theorem mix_numerator (C F B : Vec3b) (t : ℚ)
    (hmix : ∀ c : Fin 3, ((C c).val : ℚ) = t * ((F c).val : ℚ) + (1 - t) * ((B c).val : ℚ)) :
    alphaNumerator C F B = t * alphaDenominator F B := by
  simp only [alphaNumerator, alphaDenominator, Fin.sum_univ_three]
  push_cast
  rw [hmix 0, hmix 1, hmix 2]
  ring

/-- For an exact mix `C = t·F + (1−t)·B` the residual at alpha `t` is zero. -/
theorem mix_colorDiff (C F B : Vec3b) (t : ℚ)
    (hmix : ∀ c : Fin 3, ((C c).val : ℚ) = t * ((F c).val : ℚ) + (1 - t) * ((B c).val : ℚ)) :
    colorDiff C F B t = 0 := by
  simp only [colorDiff, Fin.sum_univ_three]
  rw [hmix 0, hmix 1, hmix 2]
  ring

/-- For an exact mix with `0 ≤ t ≤ 1` and `F ≠ B`, `calcAlpha` returns `t`. -/
theorem mix_calcAlpha (image : Mat Vec3b) (pixel fp bp : Nat) (t : ℚ)
    (ht0 : 0 ≤ t) (ht1 : t ≤ 1) (hFB : colorAt image fp ≠ colorAt image bp)
    (hmix : ∀ c : Fin 3, ((colorAt image pixel c).val : ℚ) =
      t * ((colorAt image fp c).val : ℚ) + (1 - t) * ((colorAt image bp c).val : ℚ)) :
    calcAlpha image pixel fp bp = t := by
  have htest := (alphaDenominator_test_iff (colorAt image fp) (colorAt image bp)).mpr hFB
  have hden : alphaDenominator (colorAt image fp) (colorAt image bp) ≠ 0 := by
    intro h0
    rw [h0] at htest
    norm_num at htest
  simp only [calcAlpha, htest, if_true]
  rw [mix_numerator _ _ _ t hmix, mul_div_assoc, div_self hden, mul_one]
  exact clamp_of_mem ht0 ht1

/-- The initial estimate at an unknown pixel whose colour is an exact mix: alpha `t`, residual 0, confidence 1 (with `exp 0 = 1`). -/
theorem mix_initial (E : Collaborators) (image : Mat Vec3b) (trimap : Mat uchar) (pixel : Nat)
    (hlo : 100 ≤ trimapColor image trimap pixel) (hhi : trimapColor image trimap pixel ≤ 200)
    (hFB : colorAt image (foreground_boundary_map E image trimap pixel) ≠
      colorAt image (background_boundary_map E image trimap pixel))
    (hexp : E.exp 0 = 1) (t : ℚ) (ht0 : 0 ≤ t) (ht1 : t ≤ 1)
    (hmix : ∀ c : Fin 3, ((colorAt image pixel c).val : ℚ) =
      t * ((colorAt image (foreground_boundary_map E image trimap pixel) c).val : ℚ) +
      (1 - t) * ((colorAt image (background_boundary_map E image trimap pixel) c).val : ℚ)) :
    (calcAlphaImageState E image trimap 0).alpha_values pixel = t ∧
    colorDiff (colorAt image pixel) (colorAt image (foreground_boundary_map E image trimap pixel))
      (colorAt image (background_boundary_map E image trimap pixel))
      ((calcAlphaImageState E image trimap 0).alpha_values pixel) = 0 ∧
    (calcAlphaImageState E image trimap 0).alpha_confidences pixel = 1 := by
  have hfg : ¬ 200 < trimapColor image trimap pixel := by omega
  have hbg : ¬ trimapColor image trimap pixel < 100 := by omega
  have ha := mix_calcAlpha image pixel _ _ t ht0 ht1 hFB hmix
  have hd := mix_colorDiff _ _ _ t hmix
  have hal : (calcAlphaImageState E image trimap 0).alpha_values pixel = t := by
    simp [calcAlphaImageState, refineState, initialEstimate, foreground_mask, background_mask,
      hfg, hbg, ha]
  refine ⟨hal, by rw [hal]; exact hd, ?_⟩
  simp [calcAlphaImageState, refineState, initialEstimate, foreground_mask, background_mask,
    hfg, hbg, ha, hd, hexp, MIN_ALPHA_CONFIDENCE]
  norm_num

/-- The nearest foreground pixel of pixel 0 of the 3×1 image is pixel 1. -/
theorem mix_foreground_pixel : foreground_boundary_map mixCollaborators mixImage mixTrimap 0 = 1 := by
  decide

/-- The nearest background pixel of pixel 0 of the 3×1 image is pixel 2. -/
theorem mix_background_pixel : background_boundary_map mixCollaborators mixImage mixTrimap 0 = 2 := by
  decide

/-- Claim C11: for every pixel and two scales of the same radius with `0 < eps_1 < eps_2`,
when the local colour covariance `image_vars` is positive semidefinite (symmetry is not
needed), the colour-alpha covariance `image_alpha_covariance` is not the zero vector and
`calcInverse` returns an inverse of `image_var` at both epsilons, the slope computed with
`eps_2` is strictly shorter than the slope computed with `eps_1`: the sums of squares, and so
the Euclidean norms, are strictly ordered. -/
theorem ridge_slope_shrinks (E : Collaborators) (image : Mat Vec3b) (s : AlphaState)
    (w_1 w_2 : WindowScale) (pixel : Nat) (hr : w_1.radius = w_2.radius)
    (he1 : 0 < w_1.epsilon) (he : w_1.epsilon < w_2.epsilon)
    (hpsd : ∀ x : Fin 3 → ℚ, 0 ≤ ∑ i : Fin 3, ∑ j : Fin 3,
      x i * image_vars E image s w_1.radius i j pixel * x j)
    (hcov : ∃ c : Fin 3, image_alpha_covariance E image s w_1.radius pixel c ≠ 0)
    (hinv1 : ∀ i j : Fin 3, ∑ k : Fin 3, image_var E image s w_1 pixel i k *
      E.calcInverse (image_var E image s w_1 pixel) k j = if i = j then 1 else 0)
    (hinv2 : ∀ i j : Fin 3, ∑ k : Fin 3, image_var E image s w_2 pixel i k *
      E.calcInverse (image_var E image s w_2 pixel) k j = if i = j then 1 else 0) :
    ∑ c : Fin 3, a_value E image s w_2 pixel c ^ 2 <
        ∑ c : Fin 3, a_value E image s w_1 pixel c ^ 2 ∧
      Real.sqrt (((∑ c : Fin 3, a_value E image s w_2 pixel c ^ 2 : ℚ)) : ℝ) <
        Real.sqrt (((∑ c : Fin 3, a_value E image s w_1 pixel c ^ 2 : ℚ)) : ℝ) := by
  suffices hlt : ∑ c : Fin 3, a_value E image s w_2 pixel c ^ 2 <
      ∑ c : Fin 3, a_value E image s w_1 pixel c ^ 2 by
    refine ⟨hlt, Real.sqrt_lt_sqrt ?_ ?_⟩
    · have : (0 : ℚ) ≤ ∑ c : Fin 3, a_value E image s w_2 pixel c ^ 2 :=
        Finset.sum_nonneg (fun _ _ => sq_nonneg _)
      exact_mod_cast this
    · exact_mod_cast hlt
  have m1 := image_var_mul_a_value E image s w_1 pixel hinv1
  have m2 := image_var_mul_a_value E image s w_2 pixel hinv2
  have h10 := m1 0
  have h11 := m1 1
  have h12 := m1 2
  have h20 := m2 0
  have h21 := m2 1
  have h22 := m2 2
  simp only [image_var, ← hr, Fin.sum_univ_three] at h10 h11 h12 h20 h21 h22
  simp at h10 h11 h12 h20 h21 h22
  have hq := hpsd (fun i => a_value E image s w_1 pixel i - a_value E image s w_2 pixel i)
  simp only [Fin.sum_univ_three] at hq ⊢
  have hc : image_alpha_covariance E image s w_1.radius pixel 0 ≠ 0 ∨
      image_alpha_covariance E image s w_1.radius pixel 1 ≠ 0 ∨
      image_alpha_covariance E image s w_1.radius pixel 2 ≠ 0 := by
    obtain ⟨c, hcne⟩ := hcov
    fin_cases c
    · exact Or.inl hcne
    · exact Or.inr (Or.inl hcne)
    · exact Or.inr (Or.inr hcne)
  refine ridge_entries_shrink
    (image_vars E image s w_1.radius 0 0 pixel) (image_vars E image s w_1.radius 0 1 pixel)
    (image_vars E image s w_1.radius 0 2 pixel) (image_vars E image s w_1.radius 1 0 pixel)
    (image_vars E image s w_1.radius 1 1 pixel) (image_vars E image s w_1.radius 1 2 pixel)
    (image_vars E image s w_1.radius 2 0 pixel) (image_vars E image s w_1.radius 2 1 pixel)
    (image_vars E image s w_1.radius 2 2 pixel) w_1.epsilon w_2.epsilon _ _ _ _ _ _
    (image_alpha_covariance E image s w_1.radius pixel 0)
    (image_alpha_covariance E image s w_1.radius pixel 1)
    (image_alpha_covariance E image s w_1.radius pixel 2) ?_ he1 he hc ?_ ?_ ?_ ?_ ?_ ?_
  · convert hq using 1
    ring
  · linarith
  · linarith
  · linarith
  · linarith
  · linarith
  · linarith

/-- Claim C11 at the 2×1 image with a black and a gray pixel, alpha 0 and 1, epsilon 1 and 2. -/
theorem ridge_slope_shrinks_witness :
    ∑ c : Fin 3, a_value plainCollaborators twoPixelImage rampState ⟨3, 2, 1⟩ 0 c ^ 2 <
      ∑ c : Fin 3, a_value plainCollaborators twoPixelImage rampState ⟨3, 1, 1⟩ 0 c ^ 2 :=
  (ridge_slope_shrinks plainCollaborators twoPixelImage rampState ⟨3, 1, 1⟩ ⟨3, 2, 1⟩ 0 rfl
    (by norm_num) (by norm_num)
    (by
      intro x
      simp only [image_vars_ramp, Fin.sum_univ_three]
      nlinarith [sq_nonneg (x 0 + x 1 + x 2)])
    ⟨0, by rw [image_alpha_covariance_ramp]; norm_num⟩
    cofactorInverse_ramp_one cofactorInverse_ramp_two).1

/-- Claim C12: the trimap value `v` read for a pixel lies in 0..255; the pixel is marked
foreground exactly when `v > 200` and background exactly when `v < 100`; no pixel is in both
masks; and a pixel is in neither mask exactly when `100 ≤ v ≤ 200`. -/
theorem mask_thresholds (image : Mat Vec3b) (trimap : Mat uchar) (pixel : Nat) :
    (0 ≤ trimapColor image trimap pixel ∧ trimapColor image trimap pixel ≤ 255) ∧
    (foreground_mask image trimap pixel = true ↔ 200 < trimapColor image trimap pixel) ∧
    (background_mask image trimap pixel = true ↔ trimapColor image trimap pixel < 100) ∧
    ¬ (foreground_mask image trimap pixel = true ∧ background_mask image trimap pixel = true) ∧
    ((foreground_mask image trimap pixel = false ∧ background_mask image trimap pixel = false) ↔
      (100 ≤ trimapColor image trimap pixel ∧ trimapColor image trimap pixel ≤ 200)) := by
  have hv : (trimap.at_ (pixel / image.cols) (pixel % image.cols)).val ≤ 255 := by omega
  have h0 : 0 ≤ trimapColor image trimap pixel := by simp [trimapColor]
  have h1 : trimapColor image trimap pixel ≤ 255 := by simp only [trimapColor]; omega
  refine ⟨⟨h0, h1⟩, ?_, ?_, ?_, ?_⟩
  · simp [foreground_mask]
  · simp [background_mask]
  · simp only [foreground_mask, background_mask, decide_eq_true_eq, gt_iff_lt]; omega
  · simp only [foreground_mask, background_mask, decide_eq_false_iff_not, gt_iff_lt]; omega

/-- Claim C13: for a pixel whose confidence sum `alpha_confidence_sums` is exactly 0 and a
`rand()` result `r` with `0 ≤ r ≤ INT_MAX`, the alpha written by the fusion loop is the integer
quotient `r / INT_MAX`: it is 0 when `r < INT_MAX`, 1 when `r = INT_MAX`, and never strictly
between 0 and 1. -/
theorem zero_sum_fallback (E : Collaborators) (iteration : Nat) (sums : Sums) (pixel : Nat)
    (hzero : sums.alpha_confidence_sums pixel = 0)
    (h0 : 0 ≤ E.rand iteration pixel) (h1 : E.rand iteration pixel ≤ INT_MAX) :
    (fuse E iteration sums).alpha_values pixel =
      ((Int.tdiv (E.rand iteration pixel) INT_MAX : Int) : ℚ) ∧
    (E.rand iteration pixel < INT_MAX → (fuse E iteration sums).alpha_values pixel = 0) ∧
    (E.rand iteration pixel = INT_MAX → (fuse E iteration sums).alpha_values pixel = 1) ∧
    ¬ (0 < (fuse E iteration sums).alpha_values pixel ∧
      (fuse E iteration sums).alpha_values pixel < 1) := by
  have hfuse : (fuse E iteration sums).alpha_values pixel =
      max (min (((Int.tdiv (E.rand iteration pixel) INT_MAX : Int) : ℚ)) 1) 0 := by
    simp [fuse, hzero]
  have hcases : Int.tdiv (E.rand iteration pixel) INT_MAX = 0 ∨
      Int.tdiv (E.rand iteration pixel) INT_MAX = 1 := by
    rcases lt_or_eq_of_le h1 with h | h
    · left
      exact Int.tdiv_eq_zero_of_lt h0 h
    · right
      rw [h]
      decide
  have hlt : E.rand iteration pixel < INT_MAX → Int.tdiv (E.rand iteration pixel) INT_MAX = 0 :=
    fun h => Int.tdiv_eq_zero_of_lt h0 h
  have heq : E.rand iteration pixel = INT_MAX → Int.tdiv (E.rand iteration pixel) INT_MAX = 1 := by
    intro h; rw [h]; decide
  refine ⟨?_, ?_, ?_, ?_⟩
  · rw [hfuse]
    rcases hcases with h | h <;> rw [h] <;> norm_num
  · intro h; rw [hfuse, hlt h]; norm_num
  · intro h; rw [hfuse, heq h]; norm_num
  · rw [hfuse]
    rcases hcases with h | h <;> rw [h] <;> norm_num

/-- Claim C13 with `rand()` returning 0 and all accumulators zero. -/
theorem zero_sum_fallback_witness :
    (fuse plainCollaborators 1 zeroSums).alpha_values 0 = 0 :=
  (zero_sum_fallback plainCollaborators 1 zeroSums 0 rfl (by decide) (by decide)).2.1 (by decide)

/-- Claim C14: a scale with a non-negative configured weight `w` contributes to
`alpha_value_sums`, `alpha_confidence_sums` and `alpha_confidence_sums2` with the weight
`floor(w)`; a scale whose weight lies in [0, 1) leaves the three accumulators unchanged; and
two lists of scales that agree in radius and epsilon and whose non-negative weights have the
same integer parts give the same alpha and confidence after the iteration. -/
theorem stored_weight_truncation (E : Collaborators) (image : Mat Vec3b) (trimap : Mat uchar)
    (s : AlphaState) (iteration : Nat) :
    (∀ (acc : Sums) (w : WindowScale) (pixel : Nat), 0 ≤ w.weight →
      (addScale E image s acc w).alpha_value_sums pixel = acc.alpha_value_sums pixel +
        candidate E image s w pixel * ((⌊w.weight⌋ : Int) : ℚ) *
          window_alpha_confidences E image s w pixel ∧
      (addScale E image s acc w).alpha_confidence_sums pixel = acc.alpha_confidence_sums pixel +
        ((⌊w.weight⌋ : Int) : ℚ) * window_alpha_confidences E image s w pixel ∧
      (addScale E image s acc w).alpha_confidence_sums2 pixel =
        acc.alpha_confidence_sums2 pixel +
          ((⌊w.weight⌋ : Int) : ℚ) * window_alpha_confidences E image s w pixel *
            window_alpha_confidences E image s w pixel) ∧
    (∀ (acc : Sums) (w : WindowScale), 0 ≤ w.weight → w.weight < 1 →
      addScale E image s acc w = acc) ∧
    (∀ scales_1 scales_2 : List WindowScale, List.Forall₂ SameStoredWeight scales_1 scales_2 →
      refineIteration E image trimap scales_1 iteration s =
        refineIteration E image trimap scales_2 iteration s) := by
  refine ⟨?_, ?_, ?_⟩
  · intro acc w pixel h
    simp [addScale, window_weight_floor h]
  · intro acc w h0 h1
    exact addScale_small_weight E image s acc w h0 h1
  · intro scales_1 scales_2 h
    simp only [refineIteration, accumulate]
    rw [accumulate_congr E image s scales_1 scales_2 h zeroSums]

/-- Claim C14 at the 1×1 image: the weight 0.5 contributes nothing, and the weights 1.5 and 1.0 give the same state. -/
theorem stored_weight_truncation_witness :
    addScale plainCollaborators grayPixelImage halfState zeroSums ⟨3, 1 / 100000, 1 / 2⟩ = zeroSums ∧
    refineIteration plainCollaborators grayPixelImage unknownTrimap [⟨3, 1 / 100000, 3 / 2⟩] 1
        halfState =
      refineIteration plainCollaborators grayPixelImage unknownTrimap [⟨3, 1 / 100000, 1⟩] 1
        halfState :=
  (fun h => ⟨h.2.1 zeroSums ⟨3, 1 / 100000, 1 / 2⟩ (by norm_num) (by norm_num),
    h.2.2 [⟨3, 1 / 100000, 3 / 2⟩] [⟨3, 1 / 100000, 1⟩]
      (List.Forall₂.cons ⟨rfl, rfl, by norm_num, by norm_num, by
        show ⌊(3 / 2 : ℚ)⌋ = ⌊(1 : ℚ)⌋
        rw [Int.floor_one, Int.floor_eq_iff]
        norm_num⟩ List.Forall₂.nil)⟩)
    (stored_weight_truncation plainCollaborators grayPixelImage unknownTrimap halfState 1)

/-- Claim C15: `IMAGE_WIDTH / 2 > 3` holds exactly from width 8 on; the scale vectors are
`[(3, 0.00001, 1.0)]` from width 8 on and empty up to width 7; and for an image of width at
most 7, at every unknown pixel and in every iteration, the confidence sum is 0, the confidence
written is 0 and the alpha written is the clamped zero-denominator value `rand() / INT_MAX`. -/
theorem narrow_image_state (E : Collaborators) (image : Mat Vec3b) (trimap : Mat uchar)
    (k pixel : Nat) (hW : image.cols ≤ 7)
    (hlo : 100 ≤ trimapColor image trimap pixel) (hhi : trimapColor image trimap pixel ≤ 200) :
    (∀ IMAGE_WIDTH : Nat, (3 < IMAGE_WIDTH / 2 ↔ 8 ≤ IMAGE_WIDTH) ∧
      (8 ≤ IMAGE_WIDTH → windowScales IMAGE_WIDTH = [⟨3, 1 / 100000, 1⟩]) ∧
      (IMAGE_WIDTH ≤ 7 → windowScales IMAGE_WIDTH = [])) ∧
    (accumulate E image (calcAlphaImageState E image trimap k)
      (windowScales image.cols)).alpha_confidence_sums pixel = 0 ∧
    (calcAlphaImageState E image trimap (k + 1)).alpha_confidences pixel = 0 ∧
    (calcAlphaImageState E image trimap (k + 1)).alpha_values pixel =
      max (min (((Int.tdiv (E.rand (k + 1) pixel) INT_MAX : Int) : ℚ)) 1) 0 := by
  have hfg : ¬ 200 < trimapColor image trimap pixel := by omega
  have hbg : ¬ trimapColor image trimap pixel < 100 := by omega
  have hnil : windowScales image.cols = [] := by
    rw [windowScales_eq]
    have : ¬ 8 ≤ image.cols := by omega
    simp [this]
  refine ⟨?_, ?_, ?_, ?_⟩
  · intro W
    refine ⟨by omega, ?_, ?_⟩
    · intro h; rw [windowScales_eq]; simp [h]
    · intro h
      rw [windowScales_eq]
      have : ¬ 8 ≤ W := by omega
      simp [this]
  · rw [hnil]; simp [accumulate, zeroSums]
  · simp [calcAlphaImageState, refineState, refineIteration, reassert, foreground_mask,
      background_mask, hfg, hbg, hnil, accumulate, zeroSums, fuse]
  · simp [calcAlphaImageState, refineState, refineIteration, reassert, foreground_mask,
      background_mask, hfg, hbg, hnil, accumulate, zeroSums, fuse]

/-- Claim C15 at the 1×1 image with an unknown pixel, after the tenth iteration. -/
theorem narrow_image_state_witness :
    (calcAlphaImageState plainCollaborators grayPixelImage unknownTrimap 10).alpha_confidences 0
      = 0 :=
  (narrow_image_state plainCollaborators grayPixelImage unknownTrimap 9 0 (by decide)
    (by decide) (by decide)).2.2.1

/-- Claim C16: for an unknown pixel whose nearest foreground colour `F` and nearest background
colour `B` differ, when `exp 0 = 1`: if the colour is `C = t·F + (1−t)·B` with `0 ≤ t ≤ 1`,
the initial alpha is `t`, the residual is 0 and the initial confidence is 1; in particular
`C = F` gives alpha 1 and `C = B` gives alpha 0. -/
theorem exact_mix_estimate (E : Collaborators) (image : Mat Vec3b) (trimap : Mat uchar)
    (pixel : Nat)
    (hlo : 100 ≤ trimapColor image trimap pixel) (hhi : trimapColor image trimap pixel ≤ 200)
    (hFB : colorAt image (foreground_boundary_map E image trimap pixel) ≠
      colorAt image (background_boundary_map E image trimap pixel))
    (hexp : E.exp 0 = 1) :
    (∀ t : ℚ, 0 ≤ t → t ≤ 1 →
      (∀ c : Fin 3, ((colorAt image pixel c).val : ℚ) =
        t * ((colorAt image (foreground_boundary_map E image trimap pixel) c).val : ℚ) +
        (1 - t) * ((colorAt image (background_boundary_map E image trimap pixel) c).val : ℚ)) →
      (calcAlphaImageState E image trimap 0).alpha_values pixel = t ∧
      (∑ c : Fin 3, (((colorAt image pixel c).val : ℚ) -
        ((calcAlphaImageState E image trimap 0).alpha_values pixel *
            ((colorAt image (foreground_boundary_map E image trimap pixel) c).val : ℚ) +
          (1 - (calcAlphaImageState E image trimap 0).alpha_values pixel) *
            ((colorAt image (background_boundary_map E image trimap pixel) c).val : ℚ))) ^ 2)
        = 0 ∧
      (calcAlphaImageState E image trimap 0).alpha_confidences pixel = 1) ∧
    (colorAt image pixel = colorAt image (foreground_boundary_map E image trimap pixel) →
      (calcAlphaImageState E image trimap 0).alpha_values pixel = 1 ∧
      (calcAlphaImageState E image trimap 0).alpha_confidences pixel = 1) ∧
    (colorAt image pixel = colorAt image (background_boundary_map E image trimap pixel) →
      (calcAlphaImageState E image trimap 0).alpha_values pixel = 0 ∧
      (calcAlphaImageState E image trimap 0).alpha_confidences pixel = 1) := by
  refine ⟨?_, ?_, ?_⟩
  · intro t ht0 ht1 hmix
    exact mix_initial E image trimap pixel hlo hhi hFB hexp t ht0 ht1 hmix
  · intro hC
    have h := mix_initial E image trimap pixel hlo hhi hFB hexp 1 (by norm_num) (by norm_num)
      (by intro c; rw [hC]; ring)
    exact ⟨h.1, h.2.2⟩
  · intro hC
    have h := mix_initial E image trimap pixel hlo hhi hFB hexp 0 (by norm_num) (by norm_num)
      (by intro c; rw [hC]; ring)
    exact ⟨h.1, h.2.2⟩

/-- Claim C16 at gray (128, 128, 128) between white and black: the initial alpha is 128/255 and the confidence 1. -/
theorem exact_mix_estimate_witness :
    (calcAlphaImageState mixCollaborators mixImage mixTrimap 0).alpha_values 0 = 128 / 255 ∧
    (calcAlphaImageState mixCollaborators mixImage mixTrimap 0).alpha_confidences 0 = 1 :=
  (fun h => ⟨h.1, h.2.2⟩)
    ((exact_mix_estimate mixCollaborators mixImage mixTrimap 0 (by decide) (by decide)
      (by
        rw [mix_foreground_pixel, mix_background_pixel]
        intro h
        have := congrFun h 0
        revert this
        decide)
      (by simp [mixCollaborators, plainCollaborators])).1 (128 / 255) (by norm_num) (by norm_num)
      (by
        intro c
        rw [mix_foreground_pixel, mix_background_pixel]
        simp [colorAt, mixImage, uchar_val_128, uchar_val_255]))

end AlphaMatting
